import Mathlib

/-!
# Room and presence coordinator of `server.js`

A shallow embedding of the Socket.IO handlers of `src/server.js`: the two process-wide
maps `rooms` and `userSockets`, the room-name generator, the allocator and every
event handler, followed by theorems about them.

Conventions of the embedding

* A JavaScript `Map` is an association list in insertion order (`JsMap`): `set` on a
  present key replaces the value in place, `set` on an absent key appends, `delete`
  removes the entry, iteration follows the list.
* Strings are Lean strings; `split('')` gives the list of characters. User ids, room ids
  and connection ids are strings; a payload field that is absent is `none`.
* A handler is a function from the state before the event to the state after it
  together with the list of events it emitted, in order. An object mutated in place
  (`players.delete(userId)`, `playerData.position = position`) is written back into
  the map that holds it.
* An emitted event records whom it is addressed to (`Target`). Which connections are
  members of a Socket.IO room (`socket.join`, `socket.leave`) is not modelled, and
  `console.log` is left out.
-/

namespace Server

/-! ## JavaScript `Map` -/

/-- Insertion-ordered association list standing for a JavaScript `Map` with string keys. -/
abbrev JsMap (V : Type) := List (String × V)

namespace JsMap

variable {V : Type}

/-- `Map.prototype.get`: the value stored under the key, `none` for `undefined`. -/
def get : JsMap V → String → Option V
  | [], _ => none
  | (k, v) :: m, key => if k = key then some v else get m key

/-- `Map.prototype.has`. -/
def has (m : JsMap V) (key : String) : Bool := (get m key).isSome

/-- `Map.prototype.set`: replace in place when the key is present, append otherwise. -/
def set : JsMap V → String → V → JsMap V
  | [], key, v => [(key, v)]
  | (k, w) :: m, key, v => if k = key then (k, v) :: m else (k, w) :: set m key v

/-- `Map.prototype.delete`. -/
def delete : JsMap V → String → JsMap V
  | [], _ => []
  | (k, w) :: m, key => if k = key then delete m key else (k, w) :: delete m key

/-- `Map.prototype.size`. -/
def size (m : JsMap V) : Nat := m.length

/-- The keys of the map, in iteration order. -/
def keys (m : JsMap V) : List String := m.map Prod.fst

end JsMap

/-! ## Constants and the room-name generator -/

/-- `const MAX_ROOM_CAPACITY = 20`. -/
def MAX_ROOM_CAPACITY : Nat := 20

/-- `const BASE_ROOM_NAME = 'aaaa'`. -/
def BASE_ROOM_NAME : String := "aaaa"

/-- `String.fromCharCode(c.charCodeAt(0) + 1)`. Lean characters are code points, not
UTF-16 units: the two agree below U+D7FF, so on every letter, and part above it (at
U+FFFF JavaScript wraps to U+0000). The allocator only ever passes letters. -/
def nextChar (c : Char) : Char := Char.ofNat (c.toNat + 1)

/-- The `for (let i = chars.length - 1; i >= 0; i--)` loop of `getNextRoomName`; the
numeric argument is `i + 1`, so `0` is the exit of the loop. The index `i` is always
within `chars`, so the default of `getD` is never read. -/
def getNextRoomNameLoop (chars : List Char) : Nat → List Char
  | 0 => chars
  | i + 1 =>
    if chars.getD i 'z' ≠ 'z' then
      chars.set i (nextChar (chars.getD i 'z'))
    else
      if i = 0 then 'a' :: chars.set i 'a'
      else getNextRoomNameLoop (chars.set i 'a') i

/-- `function getNextRoomName(currentRoom)`. -/
def getNextRoomName (currentRoom : String) : String :=
  String.mk (getNextRoomNameLoop currentRoom.data currentRoom.data.length)

/-! ## Data model -/

/-- Three numeric coordinates (`position`, `rotation`). The handlers only copy these
values; JavaScript numbers are doubles and are kept as integers here. -/
abbrev Vec3 := Int × Int × Int

/-- The object stored per user in a room. The `isMuted` property does not exist until
`toggleMute` writes it, which is `none` here. -/
structure Player where
  socketId : String
  displayName : String
  position : Vec3
  rotation : Vec3
  animationState : String
  avatarURL : String
  gender : String
  isMuted : Option Bool
  deriving DecidableEq, Repr

/-- One element of the `roomData` array of a `roomUpdate`; `isMuted = none` stands for a
property that is absent or `undefined`. -/
structure RosterEntry where
  userId : String
  displayName : String
  position : Vec3
  rotation : Vec3
  animationState : String
  avatarURL : String
  gender : String
  isMuted : Option Bool
  deriving DecidableEq, Repr

/-- Whom an emitted event is addressed to. -/
inductive Target where
  /-- `socket.emit`: the connection whose handler is running. -/
  | sender (socketId : String)
  /-- `io.to(roomId).emit`: every connection in the room. -/
  | room (roomId : String)
  /-- `socket.to(roomId).emit`: every connection in the room except the sender. -/
  | roomExceptSender (roomId : String) (socketId : String)
  /-- `io.emit`: every connection. -/
  | everyone
  /-- `socket.broadcast.emit`: every connection except the sender. -/
  | everyoneExceptSender (socketId : String)
  deriving DecidableEq, Repr

/-- Name and payload of an emitted event. -/
inductive Message where
  | error (message : String)
  | roomAssigned (roomId : String)
  | newPlayerJoined (userId : String) (displayName : String) (roomId : String)
  | roomUpdate (roomData : List RosterEntry)
  | playerMoved (userId : String) (position : Vec3) (rotation : Vec3) (animationState : String)
  | chatMessage (id : String) (text : String) (user : String)
  | audioStream (audioData : String)
  | playerMuteChanged (userId : String) (isMuted : Bool)
  | screenShareUpdate (userId : String) (textureData : String)
  deriving DecidableEq, Repr

/-- One emitted event. -/
structure Emit where
  target : Target
  message : Message
  deriving DecidableEq, Repr

/-- The process-wide state: `rooms`, `userSockets` and the connections Socket.IO
currently holds (`io.sockets.sockets`). -/
structure State where
  rooms : JsMap (JsMap Player)
  userSockets : JsMap String
  sockets : List String
  deriving DecidableEq, Repr

/-- The state at process start: both maps empty, nobody connected. -/
def State.empty : State := { rooms := [], userSockets := [], sockets := [] }

/-! ## Allocator and lookups -/

/-- `function isRoomFull(roomId)`. -/
def isRoomFull (rooms : JsMap (JsMap Player)) (roomId : String) : Bool :=
  match rooms.get roomId with
  | some players => decide (MAX_ROOM_CAPACITY ≤ players.size)
  | none => false

/-- The `while` loop of `getAvailableRoom`, with a bound on the number of probes: `none`
means the bound was reached before the loop condition became false. -/
def getAvailableRoomLoop (rooms : JsMap (JsMap Player)) : Nat → String → Option String
  | 0, _ => none
  | fuel + 1, currentRoom =>
    if isRoomFull rooms currentRoom then
      getAvailableRoomLoop rooms fuel (getNextRoomName currentRoom)
    else some currentRoom

/-- `function getAvailableRoom()`, probing at most `rooms.size + 1` names. -/
def getAvailableRoom (rooms : JsMap (JsMap Player)) : Option String :=
  getAvailableRoomLoop rooms (rooms.size + 1) BASE_ROOM_NAME

/-- `function findUserRoom(userId)`: the first room, in iteration order, that has the user. -/
def findUserRoom : JsMap (JsMap Player) → String → Option (String × JsMap Player)
  | [], _ => none
  | (roomId, players) :: rest, userId =>
    if players.has userId then some (roomId, players) else findUserRoom rest userId

/-- The roster built by `joinRoom`: every entry carries `isMuted: false`. -/
def rosterJoin (players : JsMap Player) : List RosterEntry :=
  players.map fun (id, user) =>
    { userId := id, displayName := user.displayName, position := user.position,
      rotation := user.rotation, animationState := user.animationState,
      avatarURL := user.avatarURL, gender := user.gender, isMuted := some false }

/-- The roster built by `updatePlayerdata`: `isMuted: user.isMuted`. -/
def rosterFull (players : JsMap Player) : List RosterEntry :=
  players.map fun (id, user) =>
    { userId := id, displayName := user.displayName, position := user.position,
      rotation := user.rotation, animationState := user.animationState,
      avatarURL := user.avatarURL, gender := user.gender, isMuted := user.isMuted }

/-- The roster built by `leaveRoom` and `disconnect`: no `isMuted` property. -/
def rosterLeave (players : JsMap Player) : List RosterEntry :=
  players.map fun (id, user) =>
    { userId := id, displayName := user.displayName, position := user.position,
      rotation := user.rotation, animationState := user.animationState,
      avatarURL := user.avatarURL, gender := user.gender, isMuted := none }

/-! ## Event payloads -/

/-- Payload of `joinRoom`; `roomId = none` when the client sent no `roomId`. -/
structure JoinData where
  roomEnv : String
  avatarURL : String
  avatarGender : String
  userId : String
  displayName : String
  roomId : Option String
  deriving DecidableEq, Repr

/-- Payload of `updatePosition`. -/
structure PositionData where
  userId : String
  position : Vec3
  rotation : Vec3
  animationState : String
  deriving DecidableEq, Repr

/-- Payload of `updatePlayerdata`. -/
structure PlayerData where
  userId : String
  avatarURL : String
  gender : String
  deriving DecidableEq, Repr

/-- Payload of `chat message`. -/
structure ChatData where
  message : String
  userId : String
  userName : String
  deriving DecidableEq, Repr

/-- Payload of `toggleMute`. -/
structure MuteData where
  userId : String
  isMuted : Bool
  deriving DecidableEq, Repr

/-- Payload of `screenShareUpdate`. -/
structure ScreenData where
  userId : String
  textureData : String
  deriving DecidableEq, Repr

/-! ## Handlers -/

/-- The teardown shared by `removePlayer`, `leaveRoom` and `disconnect`:
`players.delete(userId)` on the map held by `rooms` under `roomId`, then
`rooms.delete(roomId)` when `players.size === 0`. Returns the new `rooms` and the
players left in the room. -/
def removeFromRoom (rooms : JsMap (JsMap Player)) (roomId : String) (players : JsMap Player)
    (userId : String) : JsMap (JsMap Player) × JsMap Player :=
  let players' := players.delete userId
  if players'.size = 0 then (rooms.delete roomId, players')
  else (rooms.set roomId players', players')

/-- The reverse scan of the `disconnect` handler: the first `userId` of `userSockets`
bound to the socket. -/
def findSocketUser : JsMap String → String → Option String
  | [], _ => none
  | (userId, socketId) :: rest, id =>
    if socketId = id then some userId else findSocketUser rest id

/-- `socket.on('disconnect', ...)` for the socket `id`. The test `if (disconnectedUserId)`
is false for `null` (nothing found) and for a user id that is falsy; user ids are
strings here, so the one falsy id is the empty string. -/
def disconnect (s : State) (id : String) : State × List Emit :=
  match findSocketUser s.userSockets id with
  | none => (s, [])
  | some disconnectedUserId =>
    if disconnectedUserId = "" then (s, [])
    else
      let userSockets := s.userSockets.delete disconnectedUserId
      match findUserRoom s.rooms disconnectedUserId with
      | none => ({ s with userSockets := userSockets }, [])
      | some (roomId, players) =>
        let r := removeFromRoom s.rooms roomId players disconnectedUserId
        ({ s with rooms := r.1, userSockets := userSockets },
          if r.2.size = 0 then [] else [⟨.room roomId, .roomUpdate (rosterLeave r.2)⟩])

/-- Modelled from the spec: the transport layer (Socket.IO) is not part of the sources.
Closing a connection, whether the transport detects the drop or the server terminates it
(`disconnect(true)`), removes it from the set of connections and delivers its
`disconnect` event, whose handler runs to completion before anything else happens. -/
def closeSocket (s : State) (id : String) : State × List Emit :=
  disconnect { s with sockets := s.sockets.filter (fun c => c ≠ id) } id

/-- `io.sockets.sockets.get(existingSocket)?.disconnect(true)`: nothing happens when the
socket is no longer held by Socket.IO. -/
def forceDisconnect (s : State) (existingSocket : String) : State × List Emit :=
  if existingSocket ∈ s.sockets then closeSocket s existingSocket else (s, [])

/-- The duplicate-connection check of `joinRoom` (`if (userSockets.has(userId)) ...`). -/
def reconcile (s : State) (id : String) (userId : String) : State × List Emit :=
  match s.userSockets.get userId with
  | none => (s, [])
  | some existingSocket =>
    if existingSocket ≠ id then forceDisconnect s existingSocket else (s, [])

/-- The room `joinRoom` targets: the requested room when one is given (a non-empty
string) and not full, otherwise `roomEnv + getAvailableRoom()`; `none` when the probe
loop did not finish within its bound. -/
def targetRoom (rooms : JsMap (JsMap Player)) (data : JoinData) : Option String :=
  match data.roomId with
  | some requestedRoomId =>
    if requestedRoomId ≠ "" ∧ isRoomFull rooms requestedRoomId = false then some requestedRoomId
    else (getAvailableRoom rooms).map fun t => data.roomEnv ++ t
  | none => (getAvailableRoom rooms).map fun t => data.roomEnv ++ t

/-- The participant object `joinRoom` stores. -/
def newPlayer (id : String) (data : JoinData) : Player :=
  { socketId := id, displayName := data.displayName, position := (0, 0, 0),
    rotation := (0, 0, 0), animationState := "idle", avatarURL := data.avatarURL,
    gender := data.avatarGender, isMuted := none }

/-- `socket.on('joinRoom', ...)` for the socket `id`, after the target room is known. -/
def joinRoomAt (s : State) (id : String) (data : JoinData) (roomId : String) :
    State × List Emit :=
  let r := reconcile s id data.userId
  let s1 := r.1
  let userSockets := s1.userSockets.set data.userId id
  let rooms1 := if s1.rooms.has roomId then s1.rooms else s1.rooms.set roomId []
  let rooms2 := rooms1.set roomId (((rooms1.get roomId).getD []).set data.userId (newPlayer id data))
  let s2 : State := { s1 with rooms := rooms2, userSockets := userSockets }
  match rooms2.get roomId with
  | none => (s2, r.2 ++ [⟨.sender id, .error "Failed to join room. Please try again."⟩])
  | some roomPlayers =>
    (s2, r.2 ++ [⟨.everyone, .newPlayerJoined id data.displayName roomId⟩,
                 ⟨.room roomId, .roomUpdate (rosterJoin roomPlayers)⟩,
                 ⟨.sender id, .roomAssigned roomId⟩])

/-- `socket.on('joinRoom', ...)`; `none` when the probe loop did not finish. -/
def joinRoom (s : State) (id : String) (data : JoinData) : Option (State × List Emit) :=
  (targetRoom s.rooms data).map fun roomId => joinRoomAt s id data roomId

/-- `socket.on('updatePosition', ...)`. -/
def updatePosition (s : State) (id : String) (data : PositionData) : State × List Emit :=
  match findUserRoom s.rooms data.userId with
  | none =>
    (s, [⟨.sender id, .error "Failed to update position. User not found in any room."⟩])
  | some (roomId, players) =>
    match players.get data.userId with
    | some playerData =>
      let playerData' : Player :=
        { playerData with position := data.position, rotation := data.rotation,
                          animationState := data.animationState }
      ({ s with rooms := s.rooms.set roomId (players.set data.userId playerData') },
        [⟨.roomExceptSender roomId id,
          .playerMoved data.userId data.position data.rotation data.animationState⟩])
    | none =>
      (s, [⟨.sender id, .error "Failed to update position. Player data not found."⟩])

/-- `socket.on('updatePlayerdata', ...)`. -/
def updatePlayerdata (s : State) (id : String) (data : PlayerData) : State × List Emit :=
  match findUserRoom s.rooms data.userId with
  | none =>
    (s, [⟨.sender id, .error "Failed to update player data. User not found in any room."⟩])
  | some (roomId, players) =>
    match players.get data.userId with
    | some playerData =>
      let playerData' : Player :=
        { playerData with avatarURL := data.avatarURL, gender := data.gender }
      let players' := players.set data.userId playerData'
      ({ s with rooms := s.rooms.set roomId players' },
        [⟨.room roomId, .roomUpdate (rosterFull players')⟩])
    | none =>
      (s, [⟨.sender id, .error "Failed to update player data. Player data not found."⟩])

/-- `socket.on('chat message', ...)`. -/
def chatMessage (s : State) (id : String) (data : ChatData) : State × List Emit :=
  match findUserRoom s.rooms data.userId with
  | none =>
    (s, [⟨.sender id, .error "Failed to send chat message. User not found in any room."⟩])
  | some (roomId, _) =>
    (s, [⟨.room roomId, .chatMessage id data.message data.userName⟩])

/-- `socket.on('audioStream', ...)`. -/
def audioStream (s : State) (id : String) (audioData : String) : State × List Emit :=
  (s, [⟨.everyoneExceptSender id, .audioStream audioData⟩])

/-- `socket.on('toggleMute', ...)`. -/
def toggleMute (s : State) (id : String) (data : MuteData) : State × List Emit :=
  match findUserRoom s.rooms data.userId with
  | none =>
    (s, [⟨.sender id, .error "Failed to update mute status. User not found in any room."⟩])
  | some (roomId, players) =>
    match players.get data.userId with
    | some playerData =>
      let playerData' : Player := { playerData with isMuted := some data.isMuted }
      ({ s with rooms := s.rooms.set roomId (players.set data.userId playerData') },
        [⟨.room roomId, .playerMuteChanged data.userId data.isMuted⟩])
    | none =>
      (s, [⟨.sender id, .error "Failed to update mute status. Player data not found."⟩])

/-- `socket.on('screenShareUpdate', ...)`. -/
def screenShareUpdate (s : State) (id : String) (data : ScreenData) : State × List Emit :=
  match findUserRoom s.rooms data.userId with
  | none => (s, [])
  | some (roomId, _) =>
    (s, [⟨.roomExceptSender roomId id, .screenShareUpdate data.userId data.textureData⟩])

/-- `socket.on('removePlayer', ...)`. -/
def removePlayer (s : State) (userId : String) : State × List Emit :=
  match findUserRoom s.rooms userId with
  | none => (s, [])
  | some (roomId, players) =>
    ({ s with rooms := (removeFromRoom s.rooms roomId players userId).1 }, [])

/-- `socket.on('leaveRoom', ...)`. -/
def leaveRoom (s : State) (userId : String) : State × List Emit :=
  match findUserRoom s.rooms userId with
  | none => ({ s with userSockets := s.userSockets.delete userId }, [])
  | some (roomId, players) =>
    let r := removeFromRoom s.rooms roomId players userId
    ({ s with rooms := r.1, userSockets := s.userSockets.delete userId },
      if r.2.size = 0 then [] else [⟨.room roomId, .roomUpdate (rosterLeave r.2)⟩])

/-! ## Events and runs -/

/-- What can happen to the server: a client connects (`io.on('connection')`), a connected
client sends one of the named messages, or its connection closes. -/
inductive Event where
  | connection (id : String)
  | joinRoom (id : String) (data : JoinData)
  | updatePosition (id : String) (data : PositionData)
  | updatePlayerdata (id : String) (data : PlayerData)
  | chatMessage (id : String) (data : ChatData)
  | audioStream (id : String) (audioData : String)
  | toggleMute (id : String) (data : MuteData)
  | screenShareUpdate (id : String) (data : ScreenData)
  | removePlayer (id : String) (userId : String)
  | leaveRoom (id : String) (userId : String)
  | disconnect (id : String)
  deriving DecidableEq, Repr

/-- The connection an event comes from. -/
def Event.socket : Event → String
  | .connection id => id
  | .joinRoom id _ => id
  | .updatePosition id _ => id
  | .updatePlayerdata id _ => id
  | .chatMessage id _ => id
  | .audioStream id _ => id
  | .toggleMute id _ => id
  | .screenShareUpdate id _ => id
  | .removePlayer id _ => id
  | .leaveRoom id _ => id
  | .disconnect id => id

/-- Modelled from the spec: the transport layer is not part of the sources. A connection
id is new when the connection is accepted, and only a connection that is currently held
sends messages or closes. -/
def Event.enabled (s : State) : Event → Bool
  | .connection id => decide (id ∉ s.sockets)
  | e => decide (e.socket ∈ s.sockets)

/-- The handler the event runs; `none` when `joinRoom` did not finish. -/
def handle (s : State) : Event → Option (State × List Emit)
  | .connection id => some ({ s with sockets := s.sockets ++ [id] }, [])
  | .joinRoom id data => joinRoom s id data
  | .updatePosition id data => some (updatePosition s id data)
  | .updatePlayerdata id data => some (updatePlayerdata s id data)
  | .chatMessage id data => some (chatMessage s id data)
  | .audioStream id audioData => some (audioStream s id audioData)
  | .toggleMute id data => some (toggleMute s id data)
  | .screenShareUpdate id data => some (screenShareUpdate s id data)
  | .removePlayer _ userId => some (removePlayer s userId)
  | .leaveRoom _ userId => some (leaveRoom s userId)
  | .disconnect id => some (closeSocket s id)

/-- One event processed to completion: `none` when the event cannot occur in the state
or its handler did not finish. -/
def step (s : State) (e : Event) : Option (State × List Emit) :=
  if e.enabled s then handle s e else none

/-- A sequence of events processed one after the other; the emitted events of every
step are collected in order, one list per step. -/
def run : State → List Event → Option (State × List (List Emit))
  | s, [] => some (s, [])
  | s, e :: es =>
    match step s e with
    | none => none
    | some (s1, out) =>
      match run s1 es with
      | none => none
      | some (s2, outs) => some (s2, out :: outs)

/-- A state the server can be in: the result of some sequence of events from the start. -/
def Reachable (s : State) : Prop :=
  ∃ es, (run State.empty es).map Prod.fst = some s

/-- The users of a room (`none` when the room is absent). -/
def roomUsers (s : State) (roomId : String) : Option (List String) :=
  (s.rooms.get roomId).map JsMap.keys

/-- The rooms, in iteration order, that have the user as a participant. -/
def roomsOf (s : State) (userId : String) : List String :=
  (s.rooms.filter fun r => r.2.has userId).map Prod.fst

/-- A `joinRoom` payload that requests no room. -/
def autoJoin (roomEnv userId : String) : JoinData :=
  { roomEnv := roomEnv, avatarURL := "", avatarGender := "", userId := userId,
    displayName := userId, roomId := none }

/-- One client connecting and joining without a requested room: socket `"s" ++ n`,
user `"u" ++ n`. -/
def autoJoinEvents (roomEnv : String) (n : Nat) : List Event :=
  [.connection ("s" ++ toString n), .joinRoom ("s" ++ toString n) (autoJoin roomEnv ("u" ++ toString n))]

/-! ## Vocabulary of the statements -/

/-- A letter `'a'..'z'`. -/
def IsLetter (c : Char) : Prop := 97 ≤ c.toNat ∧ c.toNat ≤ 122

/-- A string made of letters `'a'..'z'` only. -/
def IsLetters (cs : List Char) : Prop := ∀ c ∈ cs, IsLetter c

instance (c : Char) : Decidable (IsLetter c) := by unfold IsLetter; infer_instance

instance (cs : List Char) : Decidable (IsLetters cs) := by unfold IsLetters; infer_instance

/-- Lexicographic order on character lists, by character code. -/
def lexLt : List Char → List Char → Prop
  | [], [] => False
  | [], _ :: _ => True
  | _ :: _, [] => False
  | a :: as, b :: bs => a.toNat < b.toNat ∨ (a = b ∧ lexLt as bs)

/-- Length-then-lexicographic order: shorter first, equal lengths lexicographically. -/
def shortlexLt (s t : List Char) : Prop :=
  s.length < t.length ∨ (s.length = t.length ∧ lexLt s t)

/-- Position of a letter string in the length-then-lexicographic enumeration, read as a
bijective base-26 numeral (`'a'` is digit 1, `'z'` is digit 26), on top of `acc`. -/
def rankFrom : Nat → List Char → Nat
  | acc, [] => acc
  | acc, c :: cs => rankFrom (acc * 26 + (c.toNat - 96)) cs

/-- Position of a letter string in the length-then-lexicographic enumeration. -/
def rank (cs : List Char) : Nat := rankFrom 0 cs

/-- The number of letter strings shorter than `n`: `26^0 + ... + 26^(n-1)`, less the
empty one, plus one; `unitRank n` is the rank of `"a…a"` of length `n`. -/
def unitRank : Nat → Nat
  | 0 => 0
  | n + 1 => 26 * unitRank n + 1

/-- The `k`-th name probed by the allocator from `start`. -/
def probe (start : String) : Nat → String
  | 0 => start
  | k + 1 => getNextRoomName (probe start k)

/-- A participant used to fill rooms in examples. -/
def somePlayer : Player := newPlayer "s" (autoJoin "" "u")

/-- `n` participants with pairwise distinct user ids `"u"`, `"uu"`, `"uuu"`, ... -/
def crowd (n : Nat) : JsMap Player :=
  (List.range n).map fun i => (String.mk (List.replicate (i + 1) 'u'), somePlayer)

/-- A store whose rooms are the first `n` names the allocator probes, each holding
`MAX_ROOM_CAPACITY` participants. -/
def fullStore (n : Nat) : JsMap (JsMap Player) :=
  (List.range n).map fun k => (probe BASE_ROOM_NAME k, crowd MAX_ROOM_CAPACITY)

/-- A `joinRoom` payload that requests the room `roomId`. -/
def requestJoin (userId roomId : String) : JoinData :=
  { roomEnv := "", avatarURL := "", avatarGender := "", userId := userId,
    displayName := userId, roomId := some roomId }

/-- Twenty-one clients `s0 … s20` connect and join environment `"ex-"` as users
`u0 … u20`, none of them requesting a room. -/
def overflowEvents : List Event := (List.range 21).flatMap (autoJoinEvents "ex-")

/-- The first twenty of `overflowEvents`' clients. -/
def fillEvents : List Event := (List.range 20).flatMap (autoJoinEvents "ex-")

/-- One client joins environment `"ex-"` and then environment `"dev-"` as the same user,
over the same connection, requesting no room. -/
def switchEvents : List Event :=
  [.connection "c1", .joinRoom "c1" (autoJoin "ex-" "u"), .joinRoom "c1" (autoJoin "dev-" "u")]

/-- User `u` joins room `r1` and then room `r2` over connection `c1`; a second
connection `c2` is then accepted. -/
def twoRoomsEvents : List Event :=
  [.connection "c1", .joinRoom "c1" (requestJoin "u" "r1"),
   .joinRoom "c1" (requestJoin "u" "r2"), .connection "c2"]

/-- User `u` joins room `r1` over connection `c1`; connection `c2` is then accepted and
sends a `joinRoom` for `u` and room `r2`. -/
def moveEvents : List Event :=
  [.connection "c1", .joinRoom "c1" (requestJoin "u" "r1"),
   .connection "c2", .joinRoom "c2" (requestJoin "u" "r2")]

/-- User `u` joins room `r1` over connection `c2`. -/
def firstJoinEvents : List Event :=
  [.connection "c2", .joinRoom "c2" (requestJoin "u" "r1")]

/-- The number of participant entries for the user across the whole store. -/
def entriesFor (s : State) (userId : String) : Nat :=
  (s.rooms.map fun r => (r.2.filter fun p => p.1 = userId).length).sum

/-- Whether the event is a connection or a `joinRoom` that requests no room. -/
def Event.isAutoJoin : Event → Bool
  | .connection _ => true
  | .joinRoom _ data => data.roomId.isNone
  | _ => false

/-- No room of the store is empty. -/
def NoEmptyRoom (rooms : JsMap (JsMap Player)) : Prop :=
  ∀ room ∈ rooms, room.2 ≠ []

/-- The state after `firstJoinEvents`: user `u` alone in room `r1`, bound to `c2`. -/
def joinedState : State :=
  { rooms := [("r1", [("u", newPlayer "c2" (requestJoin "u" "r1"))])],
    userSockets := [("u", "c2")],
    sockets := ["c2"] }

/-- The roster with the avatar fields of the user's entry replaced and every other
field and entry kept. -/
def withAvatar (roster : List RosterEntry) (userId avatarURL gender : String) :
    List RosterEntry :=
  roster.map fun e =>
    if e.userId = userId then { e with avatarURL := avatarURL, gender := gender } else e

/-- The state after `twoRoomsEvents`: user `u` in rooms `r1` and `r2`. -/
def twoRoomsState : State :=
  { rooms := [("r1", [("u", newPlayer "c1" (requestJoin "u" "r1"))]),
              ("r2", [("u", newPlayer "c1" (requestJoin "u" "r2"))])],
    userSockets := [("u", "c1")],
    sockets := ["c1", "c2"] }

/-- The room store stands for a map of maps: no room id occurs twice, and no user id
occurs twice in a room. -/
def RoomsOK (rooms : JsMap (JsMap Player)) : Prop :=
  rooms.keys.Nodup ∧ ∀ room ∈ rooms, room.2.keys.Nodup

/-- The lists of the state stand for maps: no key occurs twice in the room store, in a
room or in the connection index. -/
def WellFormed (s : State) : Prop :=
  RoomsOK s.rooms ∧ s.userSockets.keys.Nodup

/-- A client joins room `r1` with the empty string as its user id. -/
def emptyIdEvents : List Event :=
  [.connection "c1", .joinRoom "c1" (requestJoin "" "r1")]

/-- The state after `emptyIdEvents`. -/
def emptyIdState : State :=
  { rooms := [("r1", [("", newPlayer "c1" (requestJoin "" "r1"))])],
    userSockets := [("", "c1")],
    sockets := ["c1"] }

/-- User `u` joins environment `"ex-"` without requesting a room; then twenty clients
`s0 … s19` join the environment with the empty prefix, as users `u0 … u19`. -/
def reuseEvents : List Event :=
  [.connection "c", .joinRoom "c" (autoJoin "ex-" "u")]
    ++ (List.range 20).flatMap (autoJoinEvents "")

/-- User `u1` joins room `r1` and mutes; user `u2` then joins room `r1` over another
connection. -/
def muteEvents : List Event :=
  [.connection "c1", .joinRoom "c1" (requestJoin "u1" "r1"), .toggleMute "c1" ⟨"u1", true⟩,
   .connection "c2", .joinRoom "c2" (requestJoin "u2" "r1")]

/-- The user ids and mute flags a `roomUpdate` lists; empty for any other event. -/
def Emit.mutes : Emit → List (String × Option Bool)
  | ⟨_, .roomUpdate roomData⟩ => roomData.map fun e => (e.userId, e.isMuted)
  | _ => []

/-- The user ids and stored mute flags of the participants of a room. -/
def storedMutes (s : State) (roomId : String) : List (String × Option Bool) :=
  ((s.rooms.get roomId).getD []).map fun p => (p.1, p.2.isMuted)

/-- Whether the event is an `error`. -/
def Emit.isError : Emit → Bool
  | ⟨_, .error _⟩ => true
  | _ => false

/-- Whether the event is a `newPlayerJoined`. -/
def Emit.isNewPlayerJoined : Emit → Bool
  | ⟨_, .newPlayerJoined _ _ _⟩ => true
  | _ => false

/-- Whether the event is a `roomAssigned`. -/
def Emit.isRoomAssigned : Emit → Bool
  | ⟨_, .roomAssigned _⟩ => true
  | _ => false

/-- Whether the event is a `roomUpdate`. -/
def Emit.isRoomUpdate : Emit → Bool
  | ⟨_, .roomUpdate _⟩ => true
  | _ => false

/-- The three events the `joinRoom` handler emits itself, in order, once the participant
is stored: the announcement to every connection, the roster to the target room and the
reply to the sender. -/
def joinEmits (id : String) (data : JoinData) (roomId : String) (roomPlayers : JsMap Player) :
    List Emit :=
  [⟨.everyone, .newPlayerJoined id data.displayName roomId⟩,
   ⟨.room roomId, .roomUpdate (rosterJoin roomPlayers)⟩,
   ⟨.sender id, .roomAssigned roomId⟩]

/-- A `joinRoom` payload for environment `"ex-"` that requests the room `"ex-aaaa"`. -/
def requestFullRoom : JoinData :=
  { roomEnv := "ex-", avatarURL := "", avatarGender := "", userId := "v",
    displayName := "v", roomId := some "ex-aaaa" }

/-- The participant with the pose of an `updatePosition` payload and every other field
kept. -/
def withPose (playerData : Player) (data : PositionData) : Player :=
  { playerData with position := data.position, rotation := data.rotation,
                    animationState := data.animationState }

/-- Users `u` (connection `c1`) and `v` (connection `c3`) join room `r1`; connection
`c2` is then accepted and sends a `joinRoom` for `u` and room `r1`. -/
def rejoinSharedRoomEvents : List Event :=
  [.connection "c1", .joinRoom "c1" (requestJoin "u" "r1"),
   .connection "c3", .joinRoom "c3" (requestJoin "v" "r1"),
   .connection "c2", .joinRoom "c2" (requestJoin "u" "r1")]

/-! ## Properties of the room-name generator -/

theorem getD_append_cons (pre : List Char) (c d : Char) (suf : List Char) :
    (pre ++ c :: suf).getD pre.length d = c := by
  induction pre with
  | nil => rfl
  | cons a pre ih => simpa using ih

theorem set_append_cons (pre : List Char) (c x : Char) (suf : List Char) :
    (pre ++ c :: suf).set pre.length x = pre ++ x :: suf := by
  induction pre with
  | nil => rfl
  | cons a pre ih => simp

theorem loop_step_incr (pre : List Char) (c : Char) (suf : List Char) (hc : c ≠ 'z') :
    getNextRoomNameLoop (pre ++ c :: suf) (pre.length + 1) = pre ++ nextChar c :: suf := by
  simp only [getNextRoomNameLoop, getD_append_cons, set_append_cons]
  simp [hc]

theorem loop_step_carry (pre : List Char) (suf : List Char) (hp : pre ≠ []) :
    getNextRoomNameLoop (pre ++ 'z' :: suf) (pre.length + 1)
      = getNextRoomNameLoop (pre ++ 'a' :: suf) pre.length := by
  have h0 : pre.length ≠ 0 := by
    intro h; exact hp (List.length_eq_zero.mp h)
  simp only [getNextRoomNameLoop, getD_append_cons, set_append_cons]
  simp [h0]

theorem loop_step_grow (suf : List Char) :
    getNextRoomNameLoop ('z' :: suf) 1 = 'a' :: 'a' :: suf := by
  simp [getNextRoomNameLoop]

/-- The loop on a name whose rightmost non-`'z'` letter is `c`. -/
theorem loop_incr (pre : List Char) (c : Char) (hc : c ≠ 'z') (k : Nat) :
    ∀ suf : List Char,
      getNextRoomNameLoop (pre ++ c :: (List.replicate k 'z' ++ suf)) (pre.length + 1 + k)
        = pre ++ nextChar c :: (List.replicate k 'a' ++ suf) := by
  induction k with
  | zero => intro suf; simpa using loop_step_incr pre c suf hc
  | succ k ih =>
    intro suf
    have e1 : pre ++ c :: (List.replicate (k + 1) 'z' ++ suf)
        = (pre ++ c :: List.replicate k 'z') ++ 'z' :: suf := by
      simp [List.replicate_succ']
    have e2 : pre.length + 1 + (k + 1) = (pre ++ c :: List.replicate k 'z').length + 1 := by
      simp; omega
    rw [e1, e2, loop_step_carry _ _ (by simp)]
    have e3 : (pre ++ c :: List.replicate k 'z') ++ 'a' :: suf
        = pre ++ c :: (List.replicate k 'z' ++ 'a' :: suf) := by simp
    have e4 : (pre ++ c :: List.replicate k 'z').length = pre.length + 1 + k := by
      simp; omega
    rw [e3, e4, ih]
    simp [List.replicate_succ']

/-- The loop on a name made of `'z'` only. -/
theorem loop_grow (k : Nat) :
    ∀ suf : List Char,
      getNextRoomNameLoop (List.replicate (k + 1) 'z' ++ suf) (k + 1)
        = List.replicate (k + 2) 'a' ++ suf := by
  induction k with
  | zero => intro suf; simpa using loop_step_grow suf
  | succ k ih =>
    intro suf
    have e1 : List.replicate (k + 1 + 1) 'z' ++ suf
        = List.replicate (k + 1) 'z' ++ 'z' :: suf := by
      simp [List.replicate_succ' (k + 1)]
    have e3 := loop_step_carry (List.replicate (k + 1) 'z') suf (by simp)
    have e4 : (List.replicate (k + 1) 'z').length = k + 1 := by simp
    rw [e4] at e3
    rw [e1, e3, ih]
    simp [List.replicate_succ' (k + 2)]

theorem toNat_ofNat_small (n : Nat) (h : n < 55296) : (Char.ofNat n).toNat = n := by
  have hv : n.isValidChar := Or.inl h
  simp [Char.ofNat, hv, Char.ofNatAux, Char.toNat]
  rfl

theorem char_eq_of_toNat (c d : Char) (h : c.toNat = d.toNat) : c = d := by
  have := congrArg Char.ofNat h
  simpa using this

theorem toNat_nextChar (c : Char) (hc : IsLetter c) : (nextChar c).toNat = c.toNat + 1 := by
  unfold nextChar
  exact toNat_ofNat_small _ (by unfold IsLetter at hc; omega)

theorem toNat_lt_of_ne_z (c : Char) (hc : IsLetter c) (hz : c ≠ 'z') : c.toNat ≤ 121 := by
  by_contra h
  apply hz
  apply char_eq_of_toNat
  have : 'z'.toNat = 122 := by decide
  unfold IsLetter at hc
  omega

theorem isLetter_nextChar (c : Char) (hc : IsLetter c) (hz : c ≠ 'z') :
    IsLetter (nextChar c) := by
  have h1 := toNat_nextChar c hc
  have h2 := toNat_lt_of_ne_z c hc hz
  unfold IsLetter at *
  omega

/-- A non-empty name is all `'z'`, or has a rightmost letter that is not `'z'`. -/
theorem name_shape (cs : List Char) (hne : cs ≠ []) :
    (∃ k, cs = List.replicate (k + 1) 'z') ∨
    (∃ pre c k, c ≠ 'z' ∧ cs = pre ++ c :: List.replicate k 'z') := by
  induction cs with
  | nil => exact absurd rfl hne
  | cons a rest ih =>
    by_cases hr : rest = []
    · subst hr
      by_cases ha : a = 'z'
      · exact Or.inl ⟨0, by simp [ha]⟩
      · exact Or.inr ⟨[], a, 0, ha, by simp⟩
    · rcases ih hr with ⟨k, hk⟩ | ⟨pre, c, k, hc, hk⟩
      · by_cases ha : a = 'z'
        · exact Or.inl ⟨k + 1, by rw [hk, ha]; rfl⟩
        · exact Or.inr ⟨[], a, k + 1, ha, by rw [hk]; rfl⟩
      · exact Or.inr ⟨a :: pre, c, k, hc, by rw [hk]; rfl⟩

theorem next_of_incr (pre : List Char) (c : Char) (k : Nat) (hc : c ≠ 'z') :
    getNextRoomNameLoop (pre ++ c :: List.replicate k 'z')
        (pre ++ c :: List.replicate k 'z').length
      = pre ++ nextChar c :: List.replicate k 'a' := by
  have h := loop_incr pre c hc k []
  have e : (pre ++ c :: List.replicate k 'z').length = pre.length + 1 + k := by
    simp; omega
  rw [e]
  simpa using h

theorem next_of_all_z (k : Nat) :
    getNextRoomNameLoop (List.replicate (k + 1) 'z') (List.replicate (k + 1) 'z').length
      = List.replicate (k + 2) 'a' := by
  have h := loop_grow k []
  have e : (List.replicate (k + 1) 'z').length = k + 1 := by simp
  rw [e]
  simpa using h

/-! ### Rank of a name -/

theorem pow26_eq (n : Nat) : 26 ^ n = 25 * unitRank n + 1 := by
  induction n with
  | zero => rfl
  | succ n ih => rw [pow_succ, ih]; simp only [unitRank]; omega

theorem unitRank_mono {m n : Nat} (h : m ≤ n) : unitRank m ≤ unitRank n := by
  induction h with
  | refl => exact le_refl _
  | step _ ih => simp only [unitRank]; omega

theorem rankFrom_nil (acc : Nat) : rankFrom acc [] = acc := rfl

theorem rankFrom_cons (acc : Nat) (c : Char) (cs : List Char) :
    rankFrom acc (c :: cs) = rankFrom (acc * 26 + (c.toNat - 96)) cs := rfl

theorem rankFrom_append (acc : Nat) (xs ys : List Char) :
    rankFrom acc (xs ++ ys) = rankFrom (rankFrom acc xs) ys := by
  induction xs generalizing acc with
  | nil => rfl
  | cons x xs ih => rw [List.cons_append, rankFrom_cons, rankFrom_cons, ih]

theorem rankFrom_replicate_z (acc k : Nat) :
    rankFrom acc (List.replicate k 'z') = acc * 26 ^ k + 26 * unitRank k := by
  induction k generalizing acc with
  | zero => simp [rankFrom_nil, unitRank]
  | succ k ih =>
    have hz : 'z'.toNat - 96 = 26 := by decide
    have h := pow26_eq k
    simp only [List.replicate_succ, rankFrom_cons, ih, hz, unitRank, pow_succ]
    ring_nf
    omega

theorem rankFrom_replicate_a (acc k : Nat) :
    rankFrom acc (List.replicate k 'a') = acc * 26 ^ k + unitRank k := by
  induction k generalizing acc with
  | zero => simp [rankFrom_nil, unitRank]
  | succ k ih =>
    have ha : 'a'.toNat - 96 = 1 := by decide
    have h := pow26_eq k
    simp only [List.replicate_succ, rankFrom_cons, ih, ha, unitRank, pow_succ]
    ring_nf
    omega

theorem isLetters_cons {c : Char} {cs : List Char} (h : IsLetters (c :: cs)) :
    IsLetter c ∧ IsLetters cs :=
  ⟨h c (List.mem_cons_self c cs), fun d hd => h d (List.mem_cons_of_mem c hd)⟩

/-- A letter string of length `n` on top of `acc` ranks between `"a…a"` and `"z…z"`. -/
theorem rankFrom_bounds (cs : List Char) (h : IsLetters cs) (acc : Nat) :
    acc * 26 ^ cs.length + unitRank cs.length ≤ rankFrom acc cs ∧
    rankFrom acc cs ≤ acc * 26 ^ cs.length + 26 * unitRank cs.length := by
  induction cs generalizing acc with
  | nil => simp [rankFrom_nil, unitRank]
  | cons c cs ih =>
    obtain ⟨hc, hcs⟩ := isLetters_cons h
    have hd1 : 1 ≤ c.toNat - 96 := by unfold IsLetter at hc; omega
    have hd2 : c.toNat - 96 ≤ 26 := by unfold IsLetter at hc; omega
    have hP := pow26_eq cs.length
    have b1 : 1 * 26 ^ cs.length ≤ (c.toNat - 96) * 26 ^ cs.length :=
      Nat.mul_le_mul_right _ hd1
    have b2 : (c.toNat - 96) * 26 ^ cs.length ≤ 26 * 26 ^ cs.length :=
      Nat.mul_le_mul_right _ hd2
    have e1 : (acc * 26 + (c.toNat - 96)) * 26 ^ cs.length
        = 26 * (acc * 26 ^ cs.length) + (c.toNat - 96) * 26 ^ cs.length := by ring
    have e2 : acc * 26 ^ (cs.length + 1) = 26 * (acc * 26 ^ cs.length) := by ring
    have := ih hcs (acc * 26 + (c.toNat - 96))
    rw [e1] at this
    rw [rankFrom_cons, List.length_cons, e2]
    simp only [unitRank]
    omega

/-- Among letter strings of one length the rank follows the lexicographic order. -/
theorem rankFrom_lt_of_lexLt (s : List Char) :
    ∀ (t : List Char) (acc : Nat), s.length = t.length → IsLetters s → IsLetters t →
      lexLt s t → rankFrom acc s < rankFrom acc t := by
  induction s with
  | nil =>
    intro t acc hlen _ _ hlt
    cases t with
    | nil => exact absurd hlt (by simp [lexLt])
    | cons b bs => simp at hlen
  | cons a as ih =>
    intro t acc hlen hs ht hlt
    cases t with
    | nil => simp at hlen
    | cons b bs =>
      obtain ⟨ha, has⟩ := isLetters_cons hs
      obtain ⟨hb, hbs⟩ := isLetters_cons ht
      have hl : as.length = bs.length := by simpa using hlen
      rw [rankFrom_cons, rankFrom_cons]
      rcases hlt with hlt | ⟨hab, hlt⟩
      · have hP := pow26_eq as.length
        have u := (rankFrom_bounds as has (acc * 26 + (a.toNat - 96))).2
        have l := (rankFrom_bounds bs hbs (acc * 26 + (b.toNat - 96))).1
        rw [← hl] at l
        have hd : (a.toNat - 96) + 1 ≤ b.toNat - 96 := by
          unfold IsLetter at ha hb; omega
        have b1 : ((a.toNat - 96) + 1) * 26 ^ as.length ≤ (b.toNat - 96) * 26 ^ as.length :=
          Nat.mul_le_mul_right _ hd
        have e1 : (acc * 26 + (a.toNat - 96)) * 26 ^ as.length
            = 26 * (acc * 26 ^ as.length) + (a.toNat - 96) * 26 ^ as.length := by ring
        have e2 : (acc * 26 + (b.toNat - 96)) * 26 ^ as.length
            = 26 * (acc * 26 ^ as.length) + (b.toNat - 96) * 26 ^ as.length := by ring
        have e3 : ((a.toNat - 96) + 1) * 26 ^ as.length
            = (a.toNat - 96) * 26 ^ as.length + 26 ^ as.length := by ring
        rw [e1] at u
        rw [e2] at l
        rw [e3] at b1
        omega
      · subst hab
        exact ih bs _ hl has hbs hlt

/-- The rank follows the length-then-lexicographic order of letter strings. -/
theorem rank_lt_of_shortlexLt (s t : List Char) (hs : IsLetters s) (ht : IsLetters t)
    (h : shortlexLt s t) : rank s < rank t := by
  unfold rank
  rcases h with h | ⟨hl, h⟩
  · have u := (rankFrom_bounds s hs 0).2
    have l := (rankFrom_bounds t ht 0).1
    have m : unitRank (s.length + 1) ≤ unitRank t.length := unitRank_mono h
    simp only [unitRank] at m
    omega
  · exact rankFrom_lt_of_lexLt s t 0 hl hs ht h

theorem rank_next_incr (pre : List Char) (c : Char) (k : Nat) (hc : IsLetter c) (hz : c ≠ 'z') :
    rank (pre ++ nextChar c :: List.replicate k 'a')
      = rank (pre ++ c :: List.replicate k 'z') + 1 := by
  unfold rank
  have h1 := toNat_nextChar c hc
  have h2 := toNat_lt_of_ne_z c hc hz
  have hP := pow26_eq k
  have e : (nextChar c).toNat - 96 = (c.toNat - 96) + 1 := by
    unfold IsLetter at hc; omega
  rw [rankFrom_append, rankFrom_append, rankFrom_cons, rankFrom_cons, rankFrom_replicate_a,
    rankFrom_replicate_z, e]
  generalize rankFrom 0 pre = r
  have e1 : (r * 26 + (c.toNat - 96 + 1)) * 26 ^ k
      = (r * 26 + (c.toNat - 96)) * 26 ^ k + 26 ^ k := by ring
  rw [e1]
  omega

theorem rank_next_grow (k : Nat) :
    rank (List.replicate (k + 2) 'a') = rank (List.replicate (k + 1) 'z') + 1 := by
  unfold rank
  rw [rankFrom_replicate_a, rankFrom_replicate_z]
  simp only [unitRank]
  omega

theorem lexLt_append_left (pre : List Char) (s t : List Char) (h : lexLt s t) :
    lexLt (pre ++ s) (pre ++ t) := by
  induction pre with
  | nil => exact h
  | cons a pre ih => exact Or.inr ⟨rfl, ih⟩

theorem isLetters_replicate_a (k : Nat) : IsLetters (List.replicate k 'a') := by
  intro c hc
  rw [List.eq_of_mem_replicate hc]
  decide

/-- What one pass of the loop does to a non-empty letter string: the result is again a
non-empty letter string, one rank higher and later in length-then-lexicographic order. -/
theorem next_letters (cs : List Char) (hne : cs ≠ []) (hs : IsLetters cs) :
    IsLetters (getNextRoomNameLoop cs cs.length) ∧
    getNextRoomNameLoop cs cs.length ≠ [] ∧
    rank (getNextRoomNameLoop cs cs.length) = rank cs + 1 ∧
    shortlexLt cs (getNextRoomNameLoop cs cs.length) := by
  rcases name_shape cs hne with ⟨k, hk⟩ | ⟨pre, c, k, hc, hk⟩
  · subst hk
    rw [next_of_all_z]
    refine ⟨isLetters_replicate_a _, by simp [List.replicate_succ], rank_next_grow k, ?_⟩
    exact Or.inl (by simp)
  · subst hk
    have hcl : IsLetter c := hs c (by simp)
    rw [next_of_incr pre c k hc]
    refine ⟨?_, by simp, rank_next_incr pre c k hcl hc, ?_⟩
    · intro d hd
      rcases List.mem_append.mp hd with hd | hd
      · exact hs d (List.mem_append_left _ hd)
      · rcases List.mem_cons.mp hd with hd | hd
        · rw [hd]; exact isLetter_nextChar c hcl hc
        · exact isLetters_replicate_a k d hd
    · refine Or.inr ⟨by simp, lexLt_append_left pre _ _ ?_⟩
      exact Or.inl (by rw [toNat_nextChar c hcl]; omega)

/-- C6. `getNextRoomName` is the base-26 successor over `'a'..'z'`: for a non-empty
string `s` of letters the result is a letter string that comes after `s` in
length-then-lexicographic order with no letter string strictly between them; when `s`
is all `'z'` the result is the all-`'a'` string one letter longer; otherwise the
rightmost non-`'z'` letter is incremented by one, the letters to its right become `'a'`
and the letters to its left are unchanged. -/
theorem getNextRoomName_successor (s : String) (hne : s.data ≠ []) (hs : IsLetters s.data) :
    IsLetters (getNextRoomName s).data ∧
    shortlexLt s.data (getNextRoomName s).data ∧
    (∀ t : String, IsLetters t.data → shortlexLt s.data t.data →
      ¬ shortlexLt t.data (getNextRoomName s).data) ∧
    ((∀ c ∈ s.data, c = 'z') →
      (getNextRoomName s).data = List.replicate (s.data.length + 1) 'a') ∧
    (∀ (pre : List Char) (c : Char) (k : Nat),
      s.data = pre ++ c :: List.replicate k 'z' → c ≠ 'z' →
        (getNextRoomName s).data = pre ++ nextChar c :: List.replicate k 'a' ∧
        (nextChar c).toNat = c.toNat + 1) := by
  obtain ⟨h1, _, h3, h4⟩ := next_letters s.data hne hs
  refine ⟨h1, h4, ?_, ?_, ?_⟩
  · intro t ht hst htn
    have a := rank_lt_of_shortlexLt _ _ hs ht hst
    have b := rank_lt_of_shortlexLt _ _ ht h1 htn
    have c : rank (getNextRoomName s).data = rank s.data + 1 := h3
    omega
  · intro hz
    have e : s.data = List.replicate s.data.length 'z' := List.eq_replicate_iff.mpr ⟨rfl, hz⟩
    obtain ⟨k, hk⟩ : ∃ k, s.data.length = k + 1 :=
      Nat.exists_eq_succ_of_ne_zero (fun h => hne (List.length_eq_zero.mp h))
    show getNextRoomNameLoop s.data s.data.length = _
    rw [e, hk]
    simpa using next_of_all_z k
  · intro pre c k hk hc
    have hcl : IsLetter c := hs c (by rw [hk]; simp)
    refine ⟨?_, toNat_nextChar c hcl⟩
    show getNextRoomNameLoop s.data s.data.length = _
    rw [hk]
    exact next_of_incr pre c k hc

/-- C6 at `"az"`, whose successor is `"ba"`. -/
theorem getNextRoomName_successor_witness :
    (getNextRoomName "az").data = ['b', 'a'] ∧ shortlexLt "az".data (getNextRoomName "az").data :=
  ⟨((getNextRoomName_successor "az" (by decide) (by decide)).2.2.2.2 [] 'a' 1 (by decide)
      (by decide)).1,
   (getNextRoomName_successor "az" (by decide) (by decide)).2.1⟩

/-! ## Properties of the allocator -/

theorem probe_letters (start : String) (hne : start.data ≠ []) (hs : IsLetters start.data)
    (k : Nat) :
    IsLetters (probe start k).data ∧ (probe start k).data ≠ [] ∧
    rank (probe start k).data = rank start.data + k := by
  induction k with
  | zero => exact ⟨hs, hne, rfl⟩
  | succ k ih =>
    obtain ⟨h1, h2, h3⟩ := ih
    obtain ⟨n1, n2, n3, _⟩ := next_letters (probe start k).data h2 h1
    refine ⟨n1, n2, ?_⟩
    have e : rank (probe start (k + 1)).data = rank (probe start k).data + 1 := n3
    omega

theorem base_letters : BASE_ROOM_NAME.data ≠ [] ∧ IsLetters BASE_ROOM_NAME.data := by
  decide

/-- The names the allocator probes are pairwise different. -/
theorem probe_base_injective {i j : Nat} (h : probe BASE_ROOM_NAME i = probe BASE_ROOM_NAME j) :
    i = j := by
  have a := (probe_letters BASE_ROOM_NAME base_letters.1 base_letters.2 i).2.2
  have b := (probe_letters BASE_ROOM_NAME base_letters.1 base_letters.2 j).2.2
  rw [h] at a
  omega

theorem probe_shift (s : String) (k : Nat) :
    probe (getNextRoomName s) k = probe s (k + 1) := by
  induction k with
  | zero => rfl
  | succ k ih => simp only [probe] at ih ⊢; rw [ih]

/-- The loop stops at the first probed name that is not a full room, when the bound on
the number of probes allows it to get there. -/
theorem loop_eq_some (rooms : JsMap (JsMap Player)) (k : Nat) :
    ∀ (fuel : Nat) (cur : String), k < fuel →
      (∀ j, j < k → isRoomFull rooms (probe cur j) = true) →
      isRoomFull rooms (probe cur k) = false →
      getAvailableRoomLoop rooms fuel cur = some (probe cur k) := by
  induction k with
  | zero =>
    intro fuel cur hf _ hk
    obtain ⟨f, rfl⟩ : ∃ f, fuel = f + 1 := Nat.exists_eq_succ_of_ne_zero (by omega)
    have hk0 : isRoomFull rooms cur = false := hk
    simp [getAvailableRoomLoop, hk0, probe]
  | succ k ih =>
    intro fuel cur hf hfull hk
    obtain ⟨f, rfl⟩ : ∃ f, fuel = f + 1 := Nat.exists_eq_succ_of_ne_zero (by omega)
    have h0 : isRoomFull rooms cur = true := hfull 0 (by omega)
    have := ih f (getNextRoomName cur) (by omega)
      (fun j hj => by rw [probe_shift]; exact hfull (j + 1) (by omega))
      (by rw [probe_shift]; exact hk)
    rw [probe_shift] at this
    simp [getAvailableRoomLoop, h0, this]

theorem get_some_mem_keys {V : Type} (m : JsMap V) (key : String) (v : V)
    (h : m.get key = some v) : key ∈ m.keys := by
  induction m with
  | nil => simp [JsMap.get] at h
  | cons e m ih =>
    obtain ⟨k, w⟩ := e
    by_cases hk : k = key
    · simp [JsMap.keys, hk]
    · simp only [JsMap.get, hk, if_false] at h
      have := ih h
      simp only [JsMap.keys] at this ⊢
      exact List.mem_cons_of_mem _ this

theorem full_mem_keys (rooms : JsMap (JsMap Player)) (roomId : String)
    (h : isRoomFull rooms roomId = true) : roomId ∈ rooms.keys := by
  unfold isRoomFull at h
  cases hg : rooms.get roomId with
  | none => rw [hg] at h; exact absurd h (by simp)
  | some players => exact get_some_mem_keys rooms roomId players hg

/-- Among the first `rooms.size + 1` probed names one is not a full room. -/
theorem exists_probe_not_full (rooms : JsMap (JsMap Player)) :
    ∃ k, k ≤ rooms.size ∧ isRoomFull rooms (probe BASE_ROOM_NAME k) = false := by
  by_contra hcon
  have hall : ∀ k, k ≤ rooms.size → isRoomFull rooms (probe BASE_ROOM_NAME k) = true := by
    intro k hk
    by_contra hne
    exact hcon ⟨k, hk, by simpa using hne⟩
  have hnd : ((List.range (rooms.size + 1)).map (probe BASE_ROOM_NAME)).Nodup :=
    List.Nodup.map_on (fun x _ y _ hxy => probe_base_injective hxy) (List.nodup_range _)
  have hsub : (List.range (rooms.size + 1)).map (probe BASE_ROOM_NAME) ⊆ rooms.keys := by
    intro x hx
    obtain ⟨k, hk, rfl⟩ := List.mem_map.mp hx
    exact full_mem_keys rooms _ (hall k (by have := List.mem_range.mp hk; omega))
  have hlen := (List.subperm_of_subset hnd hsub).length_le
  simp [JsMap.keys, JsMap.size] at hlen

/-- The allocator returns the first probed name that is not a full room, and a larger
bound on the number of probes does not change the result. -/
theorem getAvailableRoom_first (rooms : JsMap (JsMap Player)) :
    ∃ k, k ≤ rooms.size ∧
      isRoomFull rooms (probe BASE_ROOM_NAME k) = false ∧
      (∀ j, j < k → isRoomFull rooms (probe BASE_ROOM_NAME j) = true) ∧
      (∀ fuel, k < fuel →
        getAvailableRoomLoop rooms fuel BASE_ROOM_NAME = some (probe BASE_ROOM_NAME k)) := by
  classical
  have hex : ∃ k, isRoomFull rooms (probe BASE_ROOM_NAME k) = false := by
    obtain ⟨k, _, hk⟩ := exists_probe_not_full rooms
    exact ⟨k, hk⟩
  obtain ⟨k0, hk0, hk0f⟩ := exists_probe_not_full rooms
  have hmin : ∀ j, j < Nat.find hex → isRoomFull rooms (probe BASE_ROOM_NAME j) = true := by
    intro j hj
    have := Nat.find_min hex hj
    simpa using this
  refine ⟨Nat.find hex, le_trans (Nat.find_min' hex hk0f) hk0, Nat.find_spec hex, hmin, ?_⟩
  intro fuel hf
  exact loop_eq_some rooms _ fuel BASE_ROOM_NAME hf hmin (Nat.find_spec hex)

/-! ### Lookups after `set` and `delete` -/

theorem get_set_self {V : Type} (m : JsMap V) (key : String) (v : V) :
    (m.set key v).get key = some v := by
  induction m with
  | nil => simp [JsMap.set, JsMap.get]
  | cons e m ih =>
    obtain ⟨k, w⟩ := e
    by_cases hk : k = key
    · simp [JsMap.set, JsMap.get, hk]
    · simp [JsMap.set, JsMap.get, hk, ih]

theorem get_set_of_ne {V : Type} (m : JsMap V) (key other : String) (v : V)
    (h : other ≠ key) : (m.set key v).get other = m.get other := by
  induction m with
  | nil =>
    have : ¬ key = other := fun e => h e.symm
    simp [JsMap.set, JsMap.get, this]
  | cons e m ih =>
    obtain ⟨k, w⟩ := e
    by_cases hk : k = key
    · have hko : ¬ k = other := fun e => h (e.symm.trans hk)
      simp only [JsMap.set, if_pos hk, JsMap.get, if_neg hko]
    · by_cases ho : k = other
      · simp only [JsMap.set, if_neg hk, JsMap.get, if_pos ho]
      · simp only [JsMap.set, if_neg hk, JsMap.get, if_neg ho, ih]

theorem get_delete_self {V : Type} (m : JsMap V) (key : String) :
    (m.delete key).get key = none := by
  induction m with
  | nil => rfl
  | cons e m ih =>
    obtain ⟨k, w⟩ := e
    by_cases hk : k = key
    · simp only [JsMap.delete, if_pos hk, ih]
    · simp only [JsMap.delete, if_neg hk, JsMap.get, ih]

theorem get_delete_of_ne {V : Type} (m : JsMap V) (key other : String)
    (h : other ≠ key) : (m.delete key).get other = m.get other := by
  induction m with
  | nil => rfl
  | cons e m ih =>
    obtain ⟨k, w⟩ := e
    by_cases hk : k = key
    · have hko : ¬ k = other := fun e => h (e.symm.trans hk)
      simp only [JsMap.delete, if_pos hk, JsMap.get, if_neg hko, ih]
    · by_cases ho : k = other
      · simp only [JsMap.delete, if_neg hk, JsMap.get, if_pos ho]
      · simp only [JsMap.delete, if_neg hk, JsMap.get, if_neg ho, ih]

/-! ### A store in which the first `n` probed names are full -/

theorem get_map_const {V : Type} (f : Nat → String) (v : V) (l : List Nat) (key : String) :
    ((∃ k ∈ l, f k = key) → JsMap.get (l.map fun k => (f k, v)) key = some v) ∧
    ((∀ k ∈ l, f k ≠ key) → JsMap.get (l.map fun k => (f k, v)) key = none) := by
  induction l with
  | nil => simp [JsMap.get]
  | cons a l ih =>
    constructor
    · rintro ⟨k, hk, rfl⟩
      by_cases ha : f a = f k
      · simp [JsMap.get, ha]
      · have hk2 : k ∈ l := by
          rcases List.mem_cons.mp hk with h | h
          · exact absurd (by rw [h]) ha
          · exact h
        simp only [List.map_cons, JsMap.get, ha, if_false]
        exact ih.1 ⟨k, hk2, rfl⟩
    · intro h
      have ha : f a ≠ key := h a (List.mem_cons_self a l)
      simp only [List.map_cons, JsMap.get, ha, if_false]
      exact ih.2 fun k hk => h k (List.mem_cons_of_mem a hk)

theorem fullStore_full (n k : Nat) (h : k < n) :
    isRoomFull (fullStore n) (probe BASE_ROOM_NAME k) = true := by
  have := (get_map_const (probe BASE_ROOM_NAME) (crowd MAX_ROOM_CAPACITY) (List.range n)
    (probe BASE_ROOM_NAME k)).1 ⟨k, List.mem_range.mpr h, rfl⟩
  unfold isRoomFull fullStore
  rw [this]
  simp [crowd, JsMap.size]

theorem fullStore_not_full (n : Nat) :
    isRoomFull (fullStore n) (probe BASE_ROOM_NAME n) = false := by
  have := (get_map_const (probe BASE_ROOM_NAME) (crowd MAX_ROOM_CAPACITY) (List.range n)
    (probe BASE_ROOM_NAME n)).2 (fun k hk e => by
      have := probe_base_injective e
      have := List.mem_range.mp hk
      omega)
  unfold isRoomFull fullStore
  rw [this]

theorem getAvailableRoom_fullStore (n : Nat) :
    getAvailableRoom (fullStore n) = some (probe BASE_ROOM_NAME n) := by
  have hsize : (fullStore n).size = n := by simp [fullStore, JsMap.size]
  unfold getAvailableRoom
  rw [hsize]
  exact loop_eq_some (fullStore n) n (n + 1) BASE_ROOM_NAME (by omega)
    (fun j hj => fullStore_full n j hj) (fullStore_not_full n)

theorem probe_length_gt (L : Nat) :
    L < (probe BASE_ROOM_NAME (26 * unitRank L + 1)).length := by
  obtain ⟨h1, _, h3⟩ :=
    probe_letters BASE_ROOM_NAME base_letters.1 base_letters.2 (26 * unitRank L + 1)
  by_contra hcon
  have hle : (probe BASE_ROOM_NAME (26 * unitRank L + 1)).data.length ≤ L := by
    have : (probe BASE_ROOM_NAME (26 * unitRank L + 1)).length
        = (probe BASE_ROOM_NAME (26 * unitRank L + 1)).data.length := rfl
    omega
  have u := (rankFrom_bounds _ h1 0).2
  have m := unitRank_mono hle
  unfold rank at h3
  omega

theorem targetRoom_auto (rooms : JsMap (JsMap Player)) (data : JoinData)
    (h : data.roomId = none) :
    targetRoom rooms data = (getAvailableRoom rooms).map fun t => data.roomEnv ++ t := by
  unfold targetRoom
  rw [h]

theorem targetRoom_requested (rooms : JsMap (JsMap Player)) (data : JoinData) (r : String)
    (h : data.roomId = some r) :
    targetRoom rooms data =
      if r ≠ "" ∧ isRoomFull rooms r = false then some r
      else (getAvailableRoom rooms).map fun t => data.roomEnv ++ t := by
  unfold targetRoom
  rw [h]

theorem joinRoomAt_eq (s : State) (id : String) (data : JoinData) (roomId : String) :
    joinRoomAt s id data roomId =
      (let r := reconcile s id data.userId
       let rooms1 := if r.1.rooms.has roomId then r.1.rooms else r.1.rooms.set roomId []
       let roomPlayers := ((rooms1.get roomId).getD []).set data.userId (newPlayer id data)
       ({ r.1 with rooms := rooms1.set roomId roomPlayers,
                   userSockets := r.1.userSockets.set data.userId id },
        r.2 ++ [⟨.everyone, .newPlayerJoined id data.displayName roomId⟩,
                ⟨.room roomId, .roomUpdate (rosterJoin roomPlayers)⟩,
                ⟨.sender id, .roomAssigned roomId⟩])) := by
  simp only [joinRoomAt, get_set_self]

/-- C7. Allocation always succeeds: the probe loop of `getAvailableRoom` ends with a
name for every store, within `rooms.size + 1` probes and with the same name under any
larger bound; hence every `joinRoom` runs to completion and tells the sender the room it
assigned; and for every length there is a store for which the name returned is longer. -/
theorem allocation_always_succeeds :
    (∀ rooms : JsMap (JsMap Player), ∃ t, getAvailableRoom rooms = some t ∧
      ∀ m, getAvailableRoomLoop rooms (rooms.size + 1 + m) BASE_ROOM_NAME = some t) ∧
    (∀ (s : State) (id : String) (data : JoinData), ∃ roomId s1 out,
      targetRoom s.rooms data = some roomId ∧ joinRoom s id data = some (s1, out) ∧
      (⟨.sender id, .roomAssigned roomId⟩ : Emit) ∈ out ∧
      ((s1.rooms.get roomId).bind fun players => players.get data.userId)
        = some (newPlayer id data)) ∧
    (∀ L : Nat, ∃ (rooms : JsMap (JsMap Player)) (t : String),
      getAvailableRoom rooms = some t ∧ L < t.length) := by
  have hA : ∀ rooms : JsMap (JsMap Player), ∃ t, getAvailableRoom rooms = some t ∧
      ∀ m, getAvailableRoomLoop rooms (rooms.size + 1 + m) BASE_ROOM_NAME = some t := by
    intro rooms
    obtain ⟨k, hk, _, _, hloop⟩ := getAvailableRoom_first rooms
    exact ⟨probe BASE_ROOM_NAME k, hloop _ (by omega), fun m => hloop _ (by omega)⟩
  refine ⟨hA, ?_, ?_⟩
  · intro s id data
    obtain ⟨t, ht, _⟩ := hA s.rooms
    have hT : ∃ roomId, targetRoom s.rooms data = some roomId := by
      cases hr : data.roomId with
      | none => exact ⟨data.roomEnv ++ t, by rw [targetRoom_auto _ _ hr, ht]; rfl⟩
      | some r =>
        rw [targetRoom_requested _ _ r hr]
        by_cases hc : r ≠ "" ∧ isRoomFull s.rooms r = false
        · exact ⟨r, by rw [if_pos hc]⟩
        · exact ⟨data.roomEnv ++ t, by rw [if_neg hc, ht]; rfl⟩
    obtain ⟨roomId, hroom⟩ := hT
    refine ⟨roomId, (joinRoomAt s id data roomId).1, (joinRoomAt s id data roomId).2, hroom,
      by simp [joinRoom, hroom], ?_, ?_⟩
    · rw [joinRoomAt_eq]; simp
    · rw [joinRoomAt_eq]; simp [get_set_self]
  · intro L
    exact ⟨fullStore (26 * unitRank L + 1), probe BASE_ROOM_NAME (26 * unitRank L + 1),
      getAvailableRoom_fullStore _, probe_length_gt L⟩

/-! ## Runs that show where the handlers part from the specification -/

/-- C1. Twenty-one users join environment `"ex-"` from the empty state, none requesting
a room: every one of them is put into `"ex-aaaa"`, which then holds 21 participants,
one more than `MAX_ROOM_CAPACITY = 20`. -/
theorem auto_assigned_room_exceeds_capacity :
    overflowEvents.all Event.isAutoJoin = true ∧
    (run State.empty overflowEvents).map
        (fun r => r.1.rooms.map fun room => (room.1, room.2.size))
      = some [("ex-aaaa", 21)] ∧
    MAX_ROOM_CAPACITY = 20 := by
  decide

/-- C2. After twenty users have joined environment `"ex-"` the room `"ex-aaaa"` is full,
yet the allocator, which looks up the bare name `"aaaa"`, still answers `"aaaa"`: the
twenty-first join targets `"ex-aaaa"` and its `roomAssigned` reply says so, not
`"ex-aaab"`. -/
theorem auto_assignment_returns_full_room :
    (run State.empty fillEvents).map
        (fun r => (r.1.rooms.keys, isRoomFull r.1.rooms "ex-aaaa", getAvailableRoom r.1.rooms,
          targetRoom r.1.rooms (autoJoin "ex-" "u20")))
      = some (["ex-aaaa"], true, some "aaaa", some "ex-aaaa") ∧
    (run State.empty overflowEvents).map (fun r => r.2.getLast?.bind List.getLast?)
      = some (some ⟨.sender "s20", .roomAssigned "ex-aaaa"⟩) := by
  decide

/-- C3. A user who joins environment `"ex-"` and then environment `"dev-"` over the same
connection is a participant of two rooms at once, `"ex-aaaa"` and `"dev-aaaa"`. -/
theorem user_in_two_rooms :
    (run State.empty switchEvents).map (fun r => roomsOf r.1 "u")
      = some ["ex-aaaa", "dev-aaaa"] := by
  decide

/-- C4. User `u` is a participant of `r2` (and of `r1`) and bound to connection `c1`;
a `joinRoom` for `u` from connection `c2` that targets `r3` tears down `r1` only, so `u`
is afterwards a participant of `r3` and still of `r2`. (When `u` is in `r1` only, the
same join does move the user: `r1` is deleted and `u` is in the target room alone.) -/
theorem rejoin_leaves_user_in_old_room :
    (run State.empty twoRoomsEvents).map
        (fun r => (roomsOf r.1 "u", r.1.userSockets.get "u",
          targetRoom r.1.rooms (requestJoin "u" "r3")))
      = some (["r1", "r2"], some "c1", some "r3") ∧
    (run State.empty (twoRoomsEvents ++ [.joinRoom "c2" (requestJoin "u" "r3")])).map
        (fun r => (roomsOf r.1 "u", r.1.rooms.keys))
      = some (["r2", "r3"], ["r2", "r3"]) ∧
    (run State.empty moveEvents).map (fun r => (roomsOf r.1 "u", r.1.rooms.keys))
      = some (["r2"], ["r2"]) := by
  decide

/-- C5. User `u` is in room `r1` and bound to connection `c2`; a second `joinRoom` for
`u` from the same connection `c2`, now for room `r2`, closes no connection and leaves
the index at `c2`, but the store then holds two participant entries for `u`. (Had the
second join come from another connection, the first one would have been closed and one
entry would remain.) -/
theorem rejoin_duplicates_participant :
    (run State.empty firstJoinEvents).map
        (fun r => (r.1.userSockets.get "u", entriesFor r.1 "u"))
      = some (some "c2", 1) ∧
    (run State.empty (firstJoinEvents ++ [.joinRoom "c2" (requestJoin "u" "r2")])).map
        (fun r => (r.1.userSockets.get "u", r.1.sockets, entriesFor r.1 "u", roomsOf r.1 "u"))
      = some (some "c2", ["c2"], 2, ["r1", "r2"]) ∧
    (run State.empty moveEvents).map
        (fun r => (r.1.userSockets.get "u", r.1.sockets, entriesFor r.1 "u"))
      = some (some "c2", ["c2"], 1) := by
  decide

/-! ## No empty room is stored -/

theorem mem_set {V : Type} (m : JsMap V) (key : String) (v : V) (e : String × V)
    (h : e ∈ m.set key v) : e ∈ m ∨ e = (key, v) := by
  induction m with
  | nil => simp [JsMap.set] at h; exact Or.inr h
  | cons a m ih =>
    obtain ⟨k, w⟩ := a
    by_cases hk : k = key
    · simp only [JsMap.set, if_pos hk] at h
      rcases List.mem_cons.mp h with h | h
      · exact Or.inr (by rw [h, hk])
      · exact Or.inl (List.mem_cons_of_mem _ h)
    · simp only [JsMap.set, if_neg hk] at h
      rcases List.mem_cons.mp h with h | h
      · exact Or.inl (by rw [h]; exact List.mem_cons_self _ _)
      · rcases ih h with h | h
        · exact Or.inl (List.mem_cons_of_mem _ h)
        · exact Or.inr h

theorem mem_delete {V : Type} (m : JsMap V) (key : String) (e : String × V)
    (h : e ∈ m.delete key) : e ∈ m := by
  induction m with
  | nil => simp [JsMap.delete] at h
  | cons a m ih =>
    obtain ⟨k, w⟩ := a
    by_cases hk : k = key
    · simp only [JsMap.delete, if_pos hk] at h
      exact List.mem_cons_of_mem _ (ih h)
    · simp only [JsMap.delete, if_neg hk] at h
      rcases List.mem_cons.mp h with h | h
      · rw [h]; exact List.mem_cons_self _ _
      · exact List.mem_cons_of_mem _ (ih h)

theorem set_ne_nil {V : Type} (m : JsMap V) (key : String) (v : V) : m.set key v ≠ [] := by
  cases m with
  | nil => simp [JsMap.set]
  | cons a m =>
    obtain ⟨k, w⟩ := a
    by_cases hk : k = key
    · simp [JsMap.set, hk]
    · simp [JsMap.set, hk]

theorem set_set {V : Type} (m : JsMap V) (key : String) (a b : V) :
    (m.set key a).set key b = m.set key b := by
  induction m with
  | nil => simp [JsMap.set]
  | cons e m ih =>
    obtain ⟨k, w⟩ := e
    by_cases hk : k = key
    · simp [JsMap.set, hk]
    · simp [JsMap.set, hk, ih]

theorem noEmpty_set (rooms : JsMap (JsMap Player)) (roomId : String) (players : JsMap Player)
    (h : NoEmptyRoom rooms) (hp : players ≠ []) : NoEmptyRoom (rooms.set roomId players) := by
  intro room hroom
  rcases mem_set rooms roomId players room hroom with hm | hm
  · exact h room hm
  · rw [hm]; exact hp

theorem noEmpty_delete (rooms : JsMap (JsMap Player)) (roomId : String)
    (h : NoEmptyRoom rooms) : NoEmptyRoom (rooms.delete roomId) :=
  fun room hroom => h room (mem_delete rooms roomId room hroom)

theorem noEmpty_removeFromRoom (rooms : JsMap (JsMap Player)) (roomId : String)
    (players : JsMap Player) (userId : String) (h : NoEmptyRoom rooms) :
    NoEmptyRoom (removeFromRoom rooms roomId players userId).1 := by
  unfold removeFromRoom
  by_cases hz : (players.delete userId).size = 0
  · simp only [hz, if_true]
    exact noEmpty_delete rooms roomId h
  · simp only [hz, if_false]
    refine noEmpty_set rooms roomId _ h ?_
    intro hnil
    exact hz (by rw [hnil]; rfl)

theorem noEmpty_disconnect (s : State) (id : String) (h : NoEmptyRoom s.rooms) :
    NoEmptyRoom (disconnect s id).1.rooms := by
  unfold disconnect
  cases findSocketUser s.userSockets id with
  | none => exact h
  | some u =>
    by_cases hu : u = ""
    · simp only [hu, if_true]; exact h
    · simp only [hu, if_false]
      cases hf : findUserRoom s.rooms u with
      | none => exact h
      | some found => exact noEmpty_removeFromRoom s.rooms found.1 found.2 u h

theorem noEmpty_reconcile (s : State) (id userId : String) (h : NoEmptyRoom s.rooms) :
    NoEmptyRoom (reconcile s id userId).1.rooms := by
  unfold reconcile
  cases s.userSockets.get userId with
  | none => exact h
  | some existingSocket =>
    show NoEmptyRoom (if existingSocket ≠ id then forceDisconnect s existingSocket
      else (s, [])).1.rooms
    by_cases he : existingSocket ≠ id
    · rw [if_pos he]
      unfold forceDisconnect
      by_cases hl : existingSocket ∈ s.sockets
      · rw [if_pos hl]
        exact noEmpty_disconnect _ existingSocket h
      · rw [if_neg hl]; exact h
    · rw [if_neg he]; exact h

theorem joinRoomAt_rooms (s : State) (id : String) (data : JoinData) (roomId : String) :
    (joinRoomAt s id data roomId).1.rooms =
      (reconcile s id data.userId).1.rooms.set roomId
        ((((reconcile s id data.userId).1.rooms.get roomId).getD []).set data.userId
          (newPlayer id data)) := by
  rw [joinRoomAt_eq]
  by_cases hh : (reconcile s id data.userId).1.rooms.has roomId = true
  · simp only [hh, if_true]
  · simp only [hh, if_false, Bool.false_eq_true, set_set, get_set_self]
    have hn : (reconcile s id data.userId).1.rooms.get roomId = none := by
      unfold JsMap.has at hh
      cases hg : (reconcile s id data.userId).1.rooms.get roomId with
      | none => rfl
      | some v => rw [hg] at hh; simp at hh
    rw [hn]
    rfl

theorem noEmpty_joinRoomAt (s : State) (id : String) (data : JoinData) (roomId : String)
    (h : NoEmptyRoom s.rooms) : NoEmptyRoom (joinRoomAt s id data roomId).1.rooms := by
  rw [joinRoomAt_rooms]
  exact noEmpty_set _ _ _ (noEmpty_reconcile s id data.userId h) (set_ne_nil _ _ _)

theorem noEmpty_updatePosition (s : State) (id : String) (data : PositionData)
    (h : NoEmptyRoom s.rooms) : NoEmptyRoom (updatePosition s id data).1.rooms := by
  unfold updatePosition
  cases findUserRoom s.rooms data.userId with
  | none => exact h
  | some found =>
    cases hg : found.2.get data.userId with
    | none => simp only [hg]; exact h
    | some playerData =>
      simp only [hg]
      exact noEmpty_set _ _ _ h (set_ne_nil _ _ _)

theorem noEmpty_updatePlayerdata (s : State) (id : String) (data : PlayerData)
    (h : NoEmptyRoom s.rooms) : NoEmptyRoom (updatePlayerdata s id data).1.rooms := by
  unfold updatePlayerdata
  cases findUserRoom s.rooms data.userId with
  | none => exact h
  | some found =>
    cases hg : found.2.get data.userId with
    | none => simp only [hg]; exact h
    | some playerData =>
      simp only [hg]
      exact noEmpty_set _ _ _ h (set_ne_nil _ _ _)

theorem noEmpty_toggleMute (s : State) (id : String) (data : MuteData)
    (h : NoEmptyRoom s.rooms) : NoEmptyRoom (toggleMute s id data).1.rooms := by
  unfold toggleMute
  cases findUserRoom s.rooms data.userId with
  | none => exact h
  | some found =>
    cases hg : found.2.get data.userId with
    | none => simp only [hg]; exact h
    | some playerData =>
      simp only [hg]
      exact noEmpty_set _ _ _ h (set_ne_nil _ _ _)

theorem noEmpty_chatMessage (s : State) (id : String) (data : ChatData)
    (h : NoEmptyRoom s.rooms) : NoEmptyRoom (chatMessage s id data).1.rooms := by
  unfold chatMessage
  cases findUserRoom s.rooms data.userId with
  | none => exact h
  | some found => exact h

theorem noEmpty_screenShareUpdate (s : State) (id : String) (data : ScreenData)
    (h : NoEmptyRoom s.rooms) : NoEmptyRoom (screenShareUpdate s id data).1.rooms := by
  unfold screenShareUpdate
  cases findUserRoom s.rooms data.userId with
  | none => exact h
  | some found => exact h

theorem noEmpty_removePlayer (s : State) (userId : String) (h : NoEmptyRoom s.rooms) :
    NoEmptyRoom (removePlayer s userId).1.rooms := by
  unfold removePlayer
  cases findUserRoom s.rooms userId with
  | none => exact h
  | some found => exact noEmpty_removeFromRoom s.rooms found.1 found.2 userId h

theorem noEmpty_leaveRoom (s : State) (userId : String) (h : NoEmptyRoom s.rooms) :
    NoEmptyRoom (leaveRoom s userId).1.rooms := by
  unfold leaveRoom
  cases findUserRoom s.rooms userId with
  | none => exact h
  | some found => exact noEmpty_removeFromRoom s.rooms found.1 found.2 userId h

/-- Every handler keeps the store free of empty rooms. -/
theorem noEmpty_handle (s s1 : State) (e : Event) (out : List Emit)
    (h : NoEmptyRoom s.rooms) (hs : handle s e = some (s1, out)) : NoEmptyRoom s1.rooms := by
  cases e with
  | connection id =>
    simp only [handle, Option.some.injEq, Prod.mk.injEq] at hs
    rw [← hs.1]; exact h
  | joinRoom id data =>
    simp only [handle, joinRoom] at hs
    cases ht : targetRoom s.rooms data with
    | none => rw [ht] at hs; simp at hs
    | some roomId =>
      rw [ht] at hs
      simp only [Option.map_some', Option.some.injEq] at hs
      have := noEmpty_joinRoomAt s id data roomId h
      rw [hs] at this
      exact this
  | updatePosition id data =>
    simp only [handle, Option.some.injEq] at hs
    have := noEmpty_updatePosition s id data h
    rw [hs] at this; exact this
  | updatePlayerdata id data =>
    simp only [handle, Option.some.injEq] at hs
    have := noEmpty_updatePlayerdata s id data h
    rw [hs] at this; exact this
  | chatMessage id data =>
    simp only [handle, Option.some.injEq] at hs
    have := noEmpty_chatMessage s id data h
    rw [hs] at this; exact this
  | audioStream id audioData =>
    simp only [handle, audioStream, Option.some.injEq, Prod.mk.injEq] at hs
    rw [← hs.1]; exact h
  | toggleMute id data =>
    simp only [handle, Option.some.injEq] at hs
    have := noEmpty_toggleMute s id data h
    rw [hs] at this; exact this
  | screenShareUpdate id data =>
    simp only [handle, Option.some.injEq] at hs
    have := noEmpty_screenShareUpdate s id data h
    rw [hs] at this; exact this
  | removePlayer id userId =>
    simp only [handle, Option.some.injEq] at hs
    have := noEmpty_removePlayer s userId h
    rw [hs] at this; exact this
  | leaveRoom id userId =>
    simp only [handle, Option.some.injEq] at hs
    have := noEmpty_leaveRoom s userId h
    rw [hs] at this; exact this
  | disconnect id =>
    simp only [handle, closeSocket, Option.some.injEq] at hs
    have := noEmpty_disconnect { s with sockets := s.sockets.filter (fun c => c ≠ id) } id h
    rw [hs] at this; exact this

/-- A property of states that every handler keeps is kept by every run. -/
theorem run_invariant (P : State → Prop)
    (hP : ∀ (s s1 : State) (e : Event) (out : List Emit),
      P s → handle s e = some (s1, out) → P s1)
    (es : List Event) :
    ∀ (s s1 : State) (outs : List (List Emit)), P s → run s es = some (s1, outs) → P s1 := by
  induction es with
  | nil =>
    intro s s1 outs h hr
    simp only [run, Option.some.injEq, Prod.mk.injEq] at hr
    rw [← hr.1]; exact h
  | cons e es ih =>
    intro s s1 outs h hr
    simp only [run] at hr
    cases hst : step s e with
    | none => rw [hst] at hr; simp at hr
    | some r =>
      obtain ⟨s2, out⟩ := r
      rw [hst] at hr
      simp only at hr
      cases hrun : run s2 es with
      | none => rw [hrun] at hr; simp at hr
      | some r2 =>
        obtain ⟨s3, outs2⟩ := r2
        rw [hrun] at hr
        simp only [Option.some.injEq, Prod.mk.injEq] at hr
        have hh : handle s e = some (s2, out) := by
          unfold step at hst
          by_cases hen : e.enabled s = true
          · rw [if_pos hen] at hst; exact hst
          · rw [if_neg hen] at hst; simp at hst
        have := ih s2 s3 outs2 (hP s s2 e out h hh) hrun
        rw [← hr.1]; exact this

theorem reachable_run (s : State) (h : Reachable s) :
    ∃ es outs, run State.empty es = some (s, outs) := by
  obtain ⟨es, hes⟩ := h
  cases hr : run State.empty es with
  | none => rw [hr] at hes; simp at hes
  | some r =>
    obtain ⟨s1, outs⟩ := r
    rw [hr] at hes
    simp only [Option.map_some', Option.some.injEq] at hes
    exact ⟨es, outs, by rw [← hes]; exact hr⟩

/-- A property that holds at the start and that every handler keeps holds in every
reachable state. -/
theorem reachable_invariant (P : State → Prop) (h0 : P State.empty)
    (hP : ∀ (s s1 : State) (e : Event) (out : List Emit),
      P s → handle s e = some (s1, out) → P s1)
    (s : State) (hs : Reachable s) : P s := by
  obtain ⟨es, outs, hrun⟩ := reachable_run s hs
  exact run_invariant P hP es State.empty s outs h0 hrun

theorem get_some_mem {V : Type} (m : JsMap V) (key : String) (v : V)
    (h : m.get key = some v) : (key, v) ∈ m := by
  induction m with
  | nil => simp [JsMap.get] at h
  | cons e m ih =>
    obtain ⟨k, w⟩ := e
    by_cases hk : k = key
    · simp only [JsMap.get, if_pos hk, Option.some.injEq] at h
      rw [hk, h]; exact List.mem_cons_self _ _
    · simp only [JsMap.get, if_neg hk] at h
      exact List.mem_cons_of_mem _ (ih h)

/-- C8. No empty room is ever stored: in every state reachable from the empty state,
every room present in the store has at least one participant. -/
theorem no_empty_room_stored (s : State) (hs : Reachable s) (roomId : String)
    (players : JsMap Player) (hroom : s.rooms.get roomId = some players) :
    1 ≤ players.size := by
  have hinv : NoEmptyRoom s.rooms :=
    reachable_invariant (fun t => NoEmptyRoom t.rooms)
      (fun room hroom => by simp [State.empty] at hroom) noEmpty_handle s hs
  have hne := hinv (roomId, players) (get_some_mem s.rooms roomId players hroom)
  cases players with
  | nil => exact absurd rfl hne
  | cons p ps => simp [JsMap.size]

/-- C8 at the state reached when user `u` has joined room `r1`. -/
theorem no_empty_room_stored_witness :
    Reachable joinedState ∧ 1 ≤ JsMap.size [("u", newPlayer "c2" (requestJoin "u" "r1"))] :=
  ⟨⟨firstJoinEvents, by decide⟩,
   no_empty_room_stored joinedState ⟨firstJoinEvents, by decide⟩ "r1" _ (by decide)⟩

/-! ## Lookups that find no room -/

theorem findUserRoom_eq_none (rooms : JsMap (JsMap Player)) (userId : String) :
    findUserRoom rooms userId = none ↔ ∀ room ∈ rooms, room.2.has userId = false := by
  induction rooms with
  | nil => simp [findUserRoom]
  | cons room rest ih =>
    obtain ⟨roomId, players⟩ := room
    by_cases hh : players.has userId = true
    · simp [findUserRoom, hh]
    · simp only [findUserRoom, hh, if_false, Bool.false_eq_true, ih, List.mem_cons,
        forall_eq_or_imp]
      simp only [Bool.not_eq_true] at hh
      simp [hh]

theorem roomsOf_eq_nil (s : State) (userId : String) :
    roomsOf s userId = [] ↔ ∀ room ∈ s.rooms, room.2.has userId = false := by
  unfold roomsOf
  simp [List.filter_eq_nil_iff]

theorem findUserRoom_of_roomsOf_nil (s : State) (userId : String)
    (h : roomsOf s userId = []) : findUserRoom s.rooms userId = none :=
  (findUserRoom_eq_none s.rooms userId).mpr ((roomsOf_eq_nil s userId).mp h)

/-- C9. Not-found errors go to the sender only: when the user is a participant of no
room, `updatePosition`, `updatePlayerdata`, `chat message` and `toggleMute` each emit
exactly one event, an `error` addressed to the sending connection, and leave the state
(room store, connection index, connections) as it was. -/
theorem not_found_error_to_sender_only (s : State) (id userId : String)
    (hno : roomsOf s userId = []) :
    (∀ (position rotation : Vec3) (animationState : String),
      updatePosition s id ⟨userId, position, rotation, animationState⟩ =
        (s, [⟨.sender id,
              .error "Failed to update position. User not found in any room."⟩])) ∧
    (∀ avatarURL gender : String,
      updatePlayerdata s id ⟨userId, avatarURL, gender⟩ =
        (s, [⟨.sender id,
              .error "Failed to update player data. User not found in any room."⟩])) ∧
    (∀ message userName : String,
      chatMessage s id ⟨message, userId, userName⟩ =
        (s, [⟨.sender id,
              .error "Failed to send chat message. User not found in any room."⟩])) ∧
    (∀ isMuted : Bool,
      toggleMute s id ⟨userId, isMuted⟩ =
        (s, [⟨.sender id,
              .error "Failed to update mute status. User not found in any room."⟩])) := by
  have hf := findUserRoom_of_roomsOf_nil s userId hno
  refine ⟨?_, ?_, ?_, ?_⟩
  · intro position rotation animationState
    simp only [updatePosition, hf]
  · intro avatarURL gender
    simp only [updatePlayerdata, hf]
  · intro message userName
    simp only [chatMessage, hf]
  · intro isMuted
    simp only [toggleMute, hf]

/-- C9 at the state where only user `u` is in a room, for the unknown user `v`. -/
theorem not_found_error_to_sender_only_witness :
    roomsOf joinedState "v" = [] ∧
    updatePosition joinedState "c9" ⟨"v", (1, 2, 3), (0, 0, 0), "walk"⟩ =
      (joinedState, [⟨.sender "c9",
        .error "Failed to update position. User not found in any room."⟩]) :=
  ⟨by decide,
   (not_found_error_to_sender_only joinedState "c9" "v" (by decide)).1 (1, 2, 3) (0, 0, 0)
     "walk"⟩

/-! ## Lookups that find a room -/

theorem has_iff_mem_keys {V : Type} (m : JsMap V) (key : String) :
    m.has key = true ↔ key ∈ m.keys := by
  induction m with
  | nil => simp [JsMap.has, JsMap.get, JsMap.keys]
  | cons e m ih =>
    obtain ⟨k, w⟩ := e
    by_cases hk : k = key
    · simp [JsMap.has, JsMap.get, JsMap.keys, hk]
    · have hk2 : ¬ key = k := fun e => hk e.symm
      simp only [JsMap.has, JsMap.keys] at ih
      simp [JsMap.has, JsMap.get, JsMap.keys, hk, hk2, ih]

theorem has_get {V : Type} (m : JsMap V) (key : String) (h : m.has key = true) :
    ∃ v, m.get key = some v := by
  unfold JsMap.has at h
  exact Option.isSome_iff_exists.mp h

theorem get_of_mem_nodup {V : Type} (m : JsMap V) (key : String) (v : V)
    (hnd : m.keys.Nodup) (h : (key, v) ∈ m) : m.get key = some v := by
  induction m with
  | nil => simp at h
  | cons e m ih =>
    obtain ⟨k, w⟩ := e
    simp only [JsMap.keys, List.map_cons, List.nodup_cons] at hnd
    rcases List.mem_cons.mp h with h | h
    · simp only [Prod.mk.injEq] at h
      simp [JsMap.get, h.1, h.2]
    · have hk : ¬ k = key := by
        intro e
        apply hnd.1
        rw [e]
        exact List.mem_map.mpr ⟨(key, v), h, rfl⟩
      simp only [JsMap.get, if_neg hk]
      exact ih hnd.2 h

theorem keys_set_of_mem {V : Type} (m : JsMap V) (key : String) (v : V)
    (h : key ∈ m.keys) : (m.set key v).keys = m.keys := by
  induction m with
  | nil => simp [JsMap.keys] at h
  | cons e m ih =>
    obtain ⟨k, w⟩ := e
    by_cases hk : k = key
    · simp [JsMap.set, JsMap.keys, hk]
    · have hm : key ∈ JsMap.keys m := by
        simp only [JsMap.keys, List.map_cons, List.mem_cons] at h
        rcases h with h | h
        · exact absurd h.symm hk
        · exact h
      have := ih hm
      simp only [JsMap.keys] at this
      simp [JsMap.set, JsMap.keys, hk, this]

/-- The room the lookup returns is the first room, in iteration order, that has the
user. -/
theorem findUserRoom_of_head (rooms : JsMap (JsMap Player)) (userId roomId : String)
    (h : ((rooms.filter fun r => r.2.has userId).map Prod.fst).head? = some roomId) :
    ∃ players, findUserRoom rooms userId = some (roomId, players) ∧
      (roomId, players) ∈ rooms ∧ players.has userId = true := by
  induction rooms with
  | nil => simp at h
  | cons room rest ih =>
    obtain ⟨r, ps⟩ := room
    by_cases hh : ps.has userId = true
    · simp only [List.filter_cons, hh, if_true, List.map_cons, List.head?_cons,
        Option.some.injEq] at h
      exact ⟨ps, by simp [findUserRoom, hh, h], by simp [h], hh⟩
    · simp only [List.filter_cons, hh, if_false, Bool.false_eq_true] at h
      obtain ⟨players, h1, h2, h3⟩ := ih h
      exact ⟨players, by simp [findUserRoom, hh, h1], List.mem_cons_of_mem _ h2, h3⟩

theorem withAvatar_of_not_mem (players : JsMap Player) (userId avatarURL gender : String)
    (h : userId ∉ players.keys) :
    withAvatar (rosterFull players) userId avatarURL gender = rosterFull players := by
  induction players with
  | nil => rfl
  | cons p ps ih =>
    obtain ⟨k, w⟩ := p
    simp only [JsMap.keys, List.map_cons, List.mem_cons, not_or] at h
    have hk : ¬ k = userId := fun e => h.1 e.symm
    have := ih h.2
    simp only [withAvatar, rosterFull] at this ⊢
    simp only [List.map_cons, if_neg hk, this]

theorem rosterFull_set (players : JsMap Player) (userId avatarURL gender : String)
    (playerData : Player) (hnd : players.keys.Nodup)
    (hget : players.get userId = some playerData) :
    rosterFull (players.set userId
        { playerData with avatarURL := avatarURL, gender := gender })
      = withAvatar (rosterFull players) userId avatarURL gender := by
  induction players with
  | nil => simp [JsMap.get] at hget
  | cons p ps ih =>
    obtain ⟨k, w⟩ := p
    simp only [JsMap.keys, List.map_cons, List.nodup_cons] at hnd
    by_cases hk : k = userId
    · simp only [JsMap.get, if_pos hk, Option.some.injEq] at hget
      have hno : userId ∉ JsMap.keys ps := by rw [← hk]; exact hnd.1
      have := withAvatar_of_not_mem ps userId avatarURL gender hno
      simp only [withAvatar, rosterFull] at this ⊢
      simp only [JsMap.set, if_pos hk, List.map_cons, if_true, this, hget]
    · simp only [JsMap.get, if_neg hk] at hget
      have := ih hnd.2 hget
      simp only [withAvatar, rosterFull] at this ⊢
      simp only [JsMap.set, if_neg hk, List.map_cons, this]

/-- C10. User `u` is a participant of `r1` and of `r2` (reached by joining twice over
one connection); `updatePlayerdata` for `u` emits one `roomUpdate`, to `r1`, none to
`r2`, and the entry of `u` in `r2` keeps its old avatar. -/
theorem updatePlayerdata_reaches_first_room_only :
    (run State.empty twoRoomsEvents).map Prod.fst = some twoRoomsState ∧
    roomsOf twoRoomsState "u" = ["r1", "r2"] ∧
    (updatePlayerdata twoRoomsState "c1" ⟨"u", "a.glb", "f"⟩).2.map Emit.target
      = [.room "r1"] ∧
    (((updatePlayerdata twoRoomsState "c1" ⟨"u", "a.glb", "f"⟩).1.rooms.get "r2").bind
        fun players => (players.get "u").map Player.avatarURL) = some "" := by
  decide

/-- What `updatePlayerdata` does in the room the lookup finds. When the store and the
room are maps (no key twice) and `roomId` is the first room, in iteration order, that
has the user as a participant (the user's room whenever the user is in one room only),
`updatePlayerdata` emits exactly one event, a `roomUpdate` to that room, whose roster
is the room's roster before the event with the avatar URL and gender of the user's entry
replaced by the payload's and everything else kept, the roster before the event being
the stored fields of every participant; the user's stored entry changes in those two
fields only, the other participants and every other room are as before, and so are the
connection index and the connections. -/
theorem updatePlayerdata_round_trip (s : State) (id : String) (data : PlayerData)
    (roomId : String) (players : JsMap Player)
    (hmap : s.rooms.keys.Nodup) (hroom : players.keys.Nodup)
    (hfirst : (roomsOf s data.userId).head? = some roomId)
    (hplayers : s.rooms.get roomId = some players) :
    ∃ playerData, players.get data.userId = some playerData ∧
      (updatePlayerdata s id data).2 =
        [⟨.room roomId, .roomUpdate
          (withAvatar (rosterFull players) data.userId data.avatarURL data.gender)⟩] ∧
      (updatePlayerdata s id data).1.rooms.get roomId =
        some (players.set data.userId
          { playerData with avatarURL := data.avatarURL, gender := data.gender }) ∧
      (∀ other, other ≠ data.userId →
        (players.set data.userId
          { playerData with avatarURL := data.avatarURL, gender := data.gender }).get other
          = players.get other) ∧
      (∀ other, other ≠ roomId →
        (updatePlayerdata s id data).1.rooms.get other = s.rooms.get other) ∧
      (updatePlayerdata s id data).1.rooms.keys = s.rooms.keys ∧
      (updatePlayerdata s id data).1.userSockets = s.userSockets ∧
      (updatePlayerdata s id data).1.sockets = s.sockets ∧
      rosterFull players = players.map (fun p =>
        { userId := p.1, displayName := p.2.displayName, position := p.2.position,
          rotation := p.2.rotation, animationState := p.2.animationState,
          avatarURL := p.2.avatarURL, gender := p.2.gender, isMuted := p.2.isMuted }) := by
  obtain ⟨found, hfind, hmem, hhas⟩ := findUserRoom_of_head s.rooms data.userId roomId hfirst
  have hfp : found = players := by
    have := get_of_mem_nodup s.rooms roomId found hmap hmem
    rw [hplayers] at this
    exact (Option.some.inj this).symm
  subst hfp
  obtain ⟨playerData, hget⟩ := has_get found data.userId hhas
  have hkey : roomId ∈ s.rooms.keys := get_some_mem_keys s.rooms roomId found hplayers
  refine ⟨playerData, hget, ?_, ?_, ?_, ?_, ?_, ?_, ?_, rfl⟩
  · simp only [updatePlayerdata, hfind, hget]
    rw [rosterFull_set found data.userId data.avatarURL data.gender playerData hroom hget]
  · simp only [updatePlayerdata, hfind, hget, get_set_self]
  · intro other hother
    exact get_set_of_ne _ _ _ _ hother
  · intro other hother
    simp only [updatePlayerdata, hfind, hget]
    exact get_set_of_ne _ _ _ _ hother
  · simp only [updatePlayerdata, hfind, hget]
    exact keys_set_of_mem _ _ _ hkey
  · simp only [updatePlayerdata, hfind, hget]
  · simp only [updatePlayerdata, hfind, hget]

/-- The round trip at the state where user `u` is alone in room `r1`. -/
theorem updatePlayerdata_round_trip_witness :
    (updatePlayerdata joinedState "c2" ⟨"u", "a.glb", "f"⟩).2 =
      [⟨.room "r1", .roomUpdate
        [{ userId := "u", displayName := "u", position := (0, 0, 0), rotation := (0, 0, 0),
           animationState := "idle", avatarURL := "a.glb", gender := "f",
           isMuted := none }]⟩] := by
  obtain ⟨_, _, h, _⟩ :=
    updatePlayerdata_round_trip joinedState "c2" ⟨"u", "a.glb", "f"⟩ "r1"
      [("u", newPlayer "c2" (requestJoin "u" "r1"))] (by decide) (by decide) (by decide)
      (by decide)
  exact h

/-! ## Reachable states are maps -/

theorem nodup_keys_set {V : Type} (m : JsMap V) (key : String) (v : V)
    (h : m.keys.Nodup) : (m.set key v).keys.Nodup := by
  induction m with
  | nil => simp [JsMap.set, JsMap.keys]
  | cons e m ih =>
    obtain ⟨k, w⟩ := e
    simp only [JsMap.keys, List.map_cons, List.nodup_cons] at h
    by_cases hk : k = key
    · simp only [JsMap.set, if_pos hk, JsMap.keys, List.map_cons, List.nodup_cons]
      exact h
    · simp only [JsMap.set, if_neg hk, JsMap.keys, List.map_cons, List.nodup_cons]
      refine ⟨?_, ih h.2⟩
      intro hmem
      obtain ⟨e, he, hek⟩ := List.mem_map.mp hmem
      rcases mem_set m key v e he with he | he
      · exact h.1 (List.mem_map.mpr ⟨e, he, hek⟩)
      · rw [he] at hek; exact hk hek.symm

theorem delete_sublist {V : Type} (m : JsMap V) (key : String) :
    List.Sublist (m.delete key) m := by
  induction m with
  | nil => exact List.Sublist.slnil
  | cons e m ih =>
    obtain ⟨k, w⟩ := e
    by_cases hk : k = key
    · simp only [JsMap.delete, if_pos hk]
      exact List.Sublist.cons _ ih
    · simp only [JsMap.delete, if_neg hk]
      exact List.Sublist.cons₂ _ ih

theorem nodup_keys_delete {V : Type} (m : JsMap V) (key : String)
    (h : m.keys.Nodup) : (m.delete key).keys.Nodup :=
  List.Nodup.sublist (List.Sublist.map Prod.fst (delete_sublist m key)) h

theorem roomsOK_set (rooms : JsMap (JsMap Player)) (roomId : String) (players : JsMap Player)
    (h : RoomsOK rooms) (hp : players.keys.Nodup) : RoomsOK (rooms.set roomId players) := by
  refine ⟨nodup_keys_set rooms roomId players h.1, ?_⟩
  intro room hroom
  rcases mem_set rooms roomId players room hroom with hm | hm
  · exact h.2 room hm
  · rw [hm]; exact hp

theorem roomsOK_delete (rooms : JsMap (JsMap Player)) (roomId : String)
    (h : RoomsOK rooms) : RoomsOK (rooms.delete roomId) :=
  ⟨nodup_keys_delete rooms roomId h.1,
   fun room hroom => h.2 room (mem_delete rooms roomId room hroom)⟩

theorem findUserRoom_mem (rooms : JsMap (JsMap Player)) (userId : String)
    (found : String × JsMap Player) (h : findUserRoom rooms userId = some found) :
    found ∈ rooms ∧ found.2.has userId = true := by
  induction rooms with
  | nil => simp [findUserRoom] at h
  | cons room rest ih =>
    obtain ⟨r, ps⟩ := room
    by_cases hh : ps.has userId = true
    · simp only [findUserRoom, hh, if_true, Option.some.injEq] at h
      rw [← h]
      exact ⟨List.mem_cons_self _ _, hh⟩
    · simp only [findUserRoom, hh, if_false, Bool.false_eq_true] at h
      exact ⟨List.mem_cons_of_mem _ (ih h).1, (ih h).2⟩

theorem roomsOK_removeFromRoom (rooms : JsMap (JsMap Player)) (roomId : String)
    (players : JsMap Player) (userId : String) (h : RoomsOK rooms)
    (hp : players.keys.Nodup) : RoomsOK (removeFromRoom rooms roomId players userId).1 := by
  unfold removeFromRoom
  by_cases hz : (players.delete userId).size = 0
  · simp only [hz, if_true]
    exact roomsOK_delete rooms roomId h
  · simp only [hz, if_false]
    exact roomsOK_set rooms roomId _ h (nodup_keys_delete players userId hp)

theorem wf_disconnect (s : State) (id : String) (h : WellFormed s) :
    WellFormed (disconnect s id).1 := by
  unfold disconnect
  cases findSocketUser s.userSockets id with
  | none => exact h
  | some u =>
    by_cases hu : u = ""
    · simp only [hu, if_true]; exact h
    · simp only [hu, if_false]
      cases hf : findUserRoom s.rooms u with
      | none => exact ⟨h.1, nodup_keys_delete _ _ h.2⟩
      | some found =>
        exact ⟨roomsOK_removeFromRoom s.rooms found.1 found.2 u h.1
          (h.1.2 found (findUserRoom_mem s.rooms u found hf).1), nodup_keys_delete _ _ h.2⟩

theorem wf_reconcile (s : State) (id userId : String) (h : WellFormed s) :
    WellFormed (reconcile s id userId).1 := by
  unfold reconcile
  cases s.userSockets.get userId with
  | none => exact h
  | some existingSocket =>
    show WellFormed (if existingSocket ≠ id then forceDisconnect s existingSocket
      else (s, [])).1
    by_cases he : existingSocket ≠ id
    · rw [if_pos he]
      unfold forceDisconnect
      by_cases hl : existingSocket ∈ s.sockets
      · rw [if_pos hl]
        exact wf_disconnect _ existingSocket h
      · rw [if_neg hl]; exact h
    · rw [if_neg he]; exact h

theorem nodup_keys_getD (rooms : JsMap (JsMap Player)) (roomId : String)
    (h : RoomsOK rooms) : JsMap.keys ((rooms.get roomId).getD []) |>.Nodup := by
  cases hg : rooms.get roomId with
  | none => simp [JsMap.keys]
  | some players => exact h.2 _ (get_some_mem rooms roomId players hg)

theorem wf_joinRoomAt (s : State) (id : String) (data : JoinData) (roomId : String)
    (h : WellFormed s) : WellFormed (joinRoomAt s id data roomId).1 := by
  have hr := wf_reconcile s id data.userId h
  refine ⟨?_, ?_⟩
  · rw [joinRoomAt_rooms]
    exact roomsOK_set _ _ _ hr.1 (nodup_keys_set _ _ _ (nodup_keys_getD _ _ hr.1))
  · rw [joinRoomAt_eq]
    exact nodup_keys_set _ _ _ hr.2

theorem wf_updatePosition (s : State) (id : String) (data : PositionData)
    (h : WellFormed s) : WellFormed (updatePosition s id data).1 := by
  unfold updatePosition
  cases hf : findUserRoom s.rooms data.userId with
  | none => exact h
  | some found =>
    have hnd := h.1.2 found (findUserRoom_mem s.rooms data.userId found hf).1
    cases hg : found.2.get data.userId with
    | none => simp only [hg]; exact h
    | some playerData =>
      simp only [hg]
      exact ⟨roomsOK_set _ _ _ h.1 (nodup_keys_set _ _ _ hnd), h.2⟩

theorem wf_updatePlayerdata (s : State) (id : String) (data : PlayerData)
    (h : WellFormed s) : WellFormed (updatePlayerdata s id data).1 := by
  unfold updatePlayerdata
  cases hf : findUserRoom s.rooms data.userId with
  | none => exact h
  | some found =>
    have hnd := h.1.2 found (findUserRoom_mem s.rooms data.userId found hf).1
    cases hg : found.2.get data.userId with
    | none => simp only [hg]; exact h
    | some playerData =>
      simp only [hg]
      exact ⟨roomsOK_set _ _ _ h.1 (nodup_keys_set _ _ _ hnd), h.2⟩

theorem wf_toggleMute (s : State) (id : String) (data : MuteData)
    (h : WellFormed s) : WellFormed (toggleMute s id data).1 := by
  unfold toggleMute
  cases hf : findUserRoom s.rooms data.userId with
  | none => exact h
  | some found =>
    have hnd := h.1.2 found (findUserRoom_mem s.rooms data.userId found hf).1
    cases hg : found.2.get data.userId with
    | none => simp only [hg]; exact h
    | some playerData =>
      simp only [hg]
      exact ⟨roomsOK_set _ _ _ h.1 (nodup_keys_set _ _ _ hnd), h.2⟩

theorem wf_chatMessage (s : State) (id : String) (data : ChatData)
    (h : WellFormed s) : WellFormed (chatMessage s id data).1 := by
  unfold chatMessage
  cases findUserRoom s.rooms data.userId with
  | none => exact h
  | some found => exact h

theorem wf_screenShareUpdate (s : State) (id : String) (data : ScreenData)
    (h : WellFormed s) : WellFormed (screenShareUpdate s id data).1 := by
  unfold screenShareUpdate
  cases findUserRoom s.rooms data.userId with
  | none => exact h
  | some found => exact h

theorem wf_removePlayer (s : State) (userId : String) (h : WellFormed s) :
    WellFormed (removePlayer s userId).1 := by
  unfold removePlayer
  cases hf : findUserRoom s.rooms userId with
  | none => exact h
  | some found =>
    exact ⟨roomsOK_removeFromRoom s.rooms found.1 found.2 userId h.1
      (h.1.2 found (findUserRoom_mem s.rooms userId found hf).1), h.2⟩

theorem wf_leaveRoom (s : State) (userId : String) (h : WellFormed s) :
    WellFormed (leaveRoom s userId).1 := by
  unfold leaveRoom
  cases hf : findUserRoom s.rooms userId with
  | none => exact ⟨h.1, nodup_keys_delete _ _ h.2⟩
  | some found =>
    exact ⟨roomsOK_removeFromRoom s.rooms found.1 found.2 userId h.1
      (h.1.2 found (findUserRoom_mem s.rooms userId found hf).1),
      nodup_keys_delete _ _ h.2⟩

/-- Every handler keeps the state a map of maps. -/
theorem wf_handle (s s1 : State) (e : Event) (out : List Emit)
    (h : WellFormed s) (hs : handle s e = some (s1, out)) : WellFormed s1 := by
  cases e with
  | connection id =>
    simp only [handle, Option.some.injEq, Prod.mk.injEq] at hs
    rw [← hs.1]; exact h
  | joinRoom id data =>
    simp only [handle, joinRoom] at hs
    cases ht : targetRoom s.rooms data with
    | none => rw [ht] at hs; simp at hs
    | some roomId =>
      rw [ht] at hs
      simp only [Option.map_some', Option.some.injEq] at hs
      have := wf_joinRoomAt s id data roomId h
      rw [hs] at this
      exact this
  | updatePosition id data =>
    simp only [handle, Option.some.injEq] at hs
    have := wf_updatePosition s id data h
    rw [hs] at this; exact this
  | updatePlayerdata id data =>
    simp only [handle, Option.some.injEq] at hs
    have := wf_updatePlayerdata s id data h
    rw [hs] at this; exact this
  | chatMessage id data =>
    simp only [handle, Option.some.injEq] at hs
    have := wf_chatMessage s id data h
    rw [hs] at this; exact this
  | audioStream id audioData =>
    simp only [handle, audioStream, Option.some.injEq, Prod.mk.injEq] at hs
    rw [← hs.1]; exact h
  | toggleMute id data =>
    simp only [handle, Option.some.injEq] at hs
    have := wf_toggleMute s id data h
    rw [hs] at this; exact this
  | screenShareUpdate id data =>
    simp only [handle, Option.some.injEq] at hs
    have := wf_screenShareUpdate s id data h
    rw [hs] at this; exact this
  | removePlayer id userId =>
    simp only [handle, Option.some.injEq] at hs
    have := wf_removePlayer s userId h
    rw [hs] at this; exact this
  | leaveRoom id userId =>
    simp only [handle, Option.some.injEq] at hs
    have := wf_leaveRoom s userId h
    rw [hs] at this; exact this
  | disconnect id =>
    simp only [handle, closeSocket, Option.some.injEq] at hs
    have := wf_disconnect { s with sockets := s.sockets.filter (fun c => c ≠ id) } id h
    rw [hs] at this; exact this

/-- In every reachable state the room store, every room and the connection index have
no key twice. -/
theorem reachable_wellFormed (s : State) (hs : Reachable s) : WellFormed s :=
  reachable_invariant WellFormed
    ⟨⟨List.nodup_nil, fun room hroom => by simp [State.empty] at hroom⟩, List.nodup_nil⟩
    wf_handle s hs

/-! ## Teardown: `removePlayer`, `leaveRoom`, `disconnect` -/

theorem size_eq_zero_iff {V : Type} (m : JsMap V) : m.size = 0 ↔ m = [] := by
  unfold JsMap.size
  exact List.length_eq_zero

/-- What the shared teardown does to the store, read through lookups. -/
theorem removeFromRoom_get (rooms : JsMap (JsMap Player)) (roomId : String)
    (players : JsMap Player) (userId : String) :
    (removeFromRoom rooms roomId players userId).2 = players.delete userId ∧
    (∀ other, other ≠ roomId →
      (removeFromRoom rooms roomId players userId).1.get other = rooms.get other) ∧
    (players.delete userId = [] →
      (removeFromRoom rooms roomId players userId).1.get roomId = none) ∧
    (players.delete userId ≠ [] →
      (removeFromRoom rooms roomId players userId).1.get roomId
        = some (players.delete userId)) := by
  unfold removeFromRoom
  by_cases hz : (players.delete userId).size = 0
  · have hnil := (size_eq_zero_iff _).mp hz
    simp only [hz, if_true]
    refine ⟨trivial, fun other ho => get_delete_of_ne rooms roomId other ho,
      fun _ => get_delete_self rooms roomId, fun hne => absurd hnil hne⟩
  · have hne : players.delete userId ≠ [] := fun h => hz ((size_eq_zero_iff _).mpr h)
    simp only [hz, if_false]
    refine ⟨trivial, fun other ho => get_set_of_ne rooms roomId other _ ho,
      fun hnil => absurd hnil hne, fun _ => get_set_self rooms roomId _⟩

theorem rosterLeave_userIds (players : JsMap Player) :
    (rosterLeave players).map RosterEntry.userId = players.keys := by
  induction players with
  | nil => rfl
  | cons p ps ih =>
    simp only [rosterLeave, JsMap.keys] at ih ⊢
    simp only [List.map_cons, ih]

theorem leaveRoom_of_none (s : State) (userId : String)
    (h : findUserRoom s.rooms userId = none) :
    leaveRoom s userId = ({ s with userSockets := s.userSockets.delete userId }, []) := by
  simp only [leaveRoom, h]

theorem leaveRoom_of_some (s : State) (userId roomId : String) (players : JsMap Player)
    (h : findUserRoom s.rooms userId = some (roomId, players)) :
    leaveRoom s userId =
      ({ s with rooms := (removeFromRoom s.rooms roomId players userId).1,
                userSockets := s.userSockets.delete userId },
       if (removeFromRoom s.rooms roomId players userId).2.size = 0 then []
       else [⟨.room roomId,
              .roomUpdate (rosterLeave (removeFromRoom s.rooms roomId players userId).2)⟩]) := by
  simp only [leaveRoom, h]

theorem removePlayer_of_none (s : State) (userId : String)
    (h : findUserRoom s.rooms userId = none) : removePlayer s userId = (s, []) := by
  simp only [removePlayer, h]

theorem removePlayer_of_some (s : State) (userId roomId : String) (players : JsMap Player)
    (h : findUserRoom s.rooms userId = some (roomId, players)) :
    removePlayer s userId =
      ({ s with rooms := (removeFromRoom s.rooms roomId players userId).1 }, []) := by
  simp only [removePlayer, h]

/-- C11. `leaveRoom` teardown, for every state and user. The user is unbound in the
connection index whether or not a room was found, and every other binding and the
connections are as before. When no room has the user, the store is unchanged and
nothing is emitted. When `findUserRoom` returns the room `roomId` with `players`: the
user's entry is removed from that room and the other participants are kept; if the room
is then empty it is deleted and nothing is emitted, otherwise it stays with the
remaining participants and exactly one `roomUpdate`, listing exactly those, is sent to
that room; every other room is as before. -/
theorem leaveRoom_teardown (s : State) (userId : String) :
    (leaveRoom s userId).1.userSockets.get userId = none ∧
    (∀ other, other ≠ userId →
      (leaveRoom s userId).1.userSockets.get other = s.userSockets.get other) ∧
    (leaveRoom s userId).1.sockets = s.sockets ∧
    (findUserRoom s.rooms userId = none →
      (leaveRoom s userId).1.rooms = s.rooms ∧ (leaveRoom s userId).2 = []) ∧
    (∀ (roomId : String) (players : JsMap Player),
      findUserRoom s.rooms userId = some (roomId, players) →
        (roomId, players) ∈ s.rooms ∧ players.has userId = true ∧
        (s.rooms.keys.Nodup → s.rooms.get roomId = some players) ∧
        (players.delete userId).get userId = none ∧
        (∀ other, other ≠ userId →
          (players.delete userId).get other = players.get other) ∧
        (∀ other, other ≠ roomId →
          (leaveRoom s userId).1.rooms.get other = s.rooms.get other) ∧
        (players.delete userId = [] →
          (leaveRoom s userId).1.rooms.get roomId = none ∧ (leaveRoom s userId).2 = []) ∧
        (players.delete userId ≠ [] →
          (leaveRoom s userId).1.rooms.get roomId = some (players.delete userId) ∧
          (leaveRoom s userId).2 =
            [⟨.room roomId, .roomUpdate (rosterLeave (players.delete userId))⟩] ∧
          (rosterLeave (players.delete userId)).map RosterEntry.userId
            = (players.delete userId).keys)) := by
  have hidx : (leaveRoom s userId).1.userSockets = s.userSockets.delete userId ∧
      (leaveRoom s userId).1.sockets = s.sockets := by
    cases hf : findUserRoom s.rooms userId with
    | none => rw [leaveRoom_of_none s userId hf]; exact ⟨rfl, rfl⟩
    | some found => rw [leaveRoom_of_some s userId found.1 found.2 hf]; exact ⟨rfl, rfl⟩
  refine ⟨?_, ?_, hidx.2, ?_, ?_⟩
  · rw [hidx.1]; exact get_delete_self _ _
  · intro other ho
    rw [hidx.1]; exact get_delete_of_ne _ _ _ ho
  · intro hf
    rw [leaveRoom_of_none s userId hf]
    exact ⟨rfl, rfl⟩
  · intro roomId players hf
    obtain ⟨hmem, hhas⟩ := findUserRoom_mem s.rooms userId (roomId, players) hf
    obtain ⟨h2, hother, hnil, hne⟩ := removeFromRoom_get s.rooms roomId players userId
    rw [leaveRoom_of_some s userId roomId players hf]
    refine ⟨hmem, hhas, fun hnd => get_of_mem_nodup s.rooms roomId players hnd hmem,
      get_delete_self _ _, fun other ho => get_delete_of_ne _ _ _ ho, hother, ?_, ?_⟩
    · intro he
      refine ⟨hnil he, ?_⟩
      simp only [h2, he, JsMap.size, List.length_nil, if_true]
    · intro he
      have hz : ¬ (players.delete userId).size = 0 := fun h => he ((size_eq_zero_iff _).mp h)
      refine ⟨hne he, ?_, rosterLeave_userIds _⟩
      simp only [h2, hz, if_false]

/-- C11 at the state where user `u` is alone in room `r1`: leaving deletes the room,
emits nothing and unbinds `u`. -/
theorem leaveRoom_teardown_witness :
    (leaveRoom joinedState "u").1.rooms.get "r1" = none ∧
    (leaveRoom joinedState "u").2 = [] ∧
    (leaveRoom joinedState "u").1.userSockets.get "u" = none :=
  ⟨((leaveRoom_teardown joinedState "u").2.2.2.2 "r1"
      [("u", newPlayer "c2" (requestJoin "u" "r1"))] (by decide)).2.2.2.2.2.2.1
      (by decide) |>.1,
   ((leaveRoom_teardown joinedState "u").2.2.2.2 "r1"
      [("u", newPlayer "c2" (requestJoin "u" "r1"))] (by decide)).2.2.2.2.2.2.1
      (by decide) |>.2,
   (leaveRoom_teardown joinedState "u").1⟩

/-- C18. `removePlayer` is a silent removal, for every state and user: it emits no event
and leaves the connection index and the connections as they were. When no room has the
user, the store is unchanged. When `findUserRoom` returns the room `roomId` with
`players`: the user's entry is removed from that room and the other participants are
kept; the room is deleted if it is then empty and otherwise stays with the remaining
participants; every other room is as before. -/
theorem removePlayer_silent (s : State) (userId : String) :
    (removePlayer s userId).2 = [] ∧
    (removePlayer s userId).1.userSockets = s.userSockets ∧
    (removePlayer s userId).1.sockets = s.sockets ∧
    (findUserRoom s.rooms userId = none → (removePlayer s userId).1.rooms = s.rooms) ∧
    (∀ (roomId : String) (players : JsMap Player),
      findUserRoom s.rooms userId = some (roomId, players) →
        (roomId, players) ∈ s.rooms ∧ players.has userId = true ∧
        (s.rooms.keys.Nodup → s.rooms.get roomId = some players) ∧
        (players.delete userId).get userId = none ∧
        (∀ other, other ≠ userId →
          (players.delete userId).get other = players.get other) ∧
        (∀ other, other ≠ roomId →
          (removePlayer s userId).1.rooms.get other = s.rooms.get other) ∧
        (players.delete userId = [] → (removePlayer s userId).1.rooms.get roomId = none) ∧
        (players.delete userId ≠ [] →
          (removePlayer s userId).1.rooms.get roomId = some (players.delete userId))) := by
  have hrest : (removePlayer s userId).2 = [] ∧
      (removePlayer s userId).1.userSockets = s.userSockets ∧
      (removePlayer s userId).1.sockets = s.sockets := by
    cases hf : findUserRoom s.rooms userId with
    | none => rw [removePlayer_of_none s userId hf]; exact ⟨rfl, rfl, rfl⟩
    | some found =>
      rw [removePlayer_of_some s userId found.1 found.2 hf]; exact ⟨rfl, rfl, rfl⟩
  refine ⟨hrest.1, hrest.2.1, hrest.2.2, ?_, ?_⟩
  · intro hf
    rw [removePlayer_of_none s userId hf]
  · intro roomId players hf
    obtain ⟨hmem, hhas⟩ := findUserRoom_mem s.rooms userId (roomId, players) hf
    obtain ⟨_, hother, hnil, hne⟩ := removeFromRoom_get s.rooms roomId players userId
    rw [removePlayer_of_some s userId roomId players hf]
    exact ⟨hmem, hhas, fun hnd => get_of_mem_nodup s.rooms roomId players hnd hmem,
      get_delete_self _ _, fun other ho => get_delete_of_ne _ _ _ ho, hother, hnil, hne⟩

/-- C18 at the state where user `u` is alone in room `r1`: the room is deleted, nothing
is emitted and `u` stays bound to its connection. -/
theorem removePlayer_silent_witness :
    (removePlayer joinedState "u").1.rooms.get "r1" = none ∧
    (removePlayer joinedState "u").2 = [] ∧
    (removePlayer joinedState "u").1.userSockets = [("u", "c2")] :=
  ⟨((removePlayer_silent joinedState "u").2.2.2.2 "r1"
      [("u", newPlayer "c2" (requestJoin "u" "r1"))] (by decide)).2.2.2.2.2.2.1 (by decide),
   (removePlayer_silent joinedState "u").1,
   (removePlayer_silent joinedState "u").2.1⟩

theorem findSocketUser_eq_none (userSockets : JsMap String) (id : String)
    (h : ∀ entry ∈ userSockets, entry.2 ≠ id) : findSocketUser userSockets id = none := by
  induction userSockets with
  | nil => rfl
  | cons e rest ih =>
    obtain ⟨userId, socketId⟩ := e
    have hne : ¬ socketId = id := h (userId, socketId) (List.mem_cons_self _ _)
    simp only [findSocketUser, if_neg hne]
    exact ih fun entry hentry => h entry (List.mem_cons_of_mem _ hentry)

/-- C13. Disconnect of an unbound connection is a silent no-op: when no entry of the
connection index binds a user to the connection, its `disconnect` handler returns the
state as it was and emits nothing; with the connection closed, the room store and the
connection index are as before and no event was emitted. -/
theorem disconnect_unbound_noop (s : State) (id : String)
    (hunbound : ∀ entry ∈ s.userSockets, entry.2 ≠ id) :
    disconnect s id = (s, []) ∧
    (closeSocket s id).1.rooms = s.rooms ∧
    (closeSocket s id).1.userSockets = s.userSockets ∧
    (closeSocket s id).2 = [] := by
  have hf := findSocketUser_eq_none s.userSockets id hunbound
  refine ⟨?_, ?_, ?_, ?_⟩
  · simp only [disconnect, hf]
  · simp only [closeSocket, disconnect, hf]
  · simp only [closeSocket, disconnect, hf]
  · simp only [closeSocket, disconnect, hf]

/-- C13 at the state where `u` is bound to `c2`, for the connection `c1`. -/
theorem disconnect_unbound_noop_witness :
    disconnect joinedState "c1" = (joinedState, []) :=
  (disconnect_unbound_noop joinedState "c1" (by decide)).1

/-- The `disconnect` handler of a connection whose first bound user is `userId`, a
non-empty string, is `leaveRoom` for that user. -/
theorem disconnect_eq_leaveRoom (s : State) (id userId : String)
    (hbound : findSocketUser s.userSockets id = some userId) (hne : userId ≠ "") :
    disconnect s id = leaveRoom s userId := by
  unfold disconnect leaveRoom
  simp only [hbound, if_neg hne]

/-- C14. In the state reached when a client has joined room `r1` with the empty string
as its user id, the scan finds `""` for connection `c1`, the `disconnect` handler
changes nothing and emits nothing, and `leaveRoom("")` deletes the room and unbinds the
user. -/
theorem disconnect_skips_empty_userId :
    (run State.empty emptyIdEvents).map Prod.fst = some emptyIdState ∧
    findSocketUser emptyIdState.userSockets "c1" = some "" ∧
    disconnect emptyIdState "c1" = (emptyIdState, []) ∧
    (leaveRoom emptyIdState "").1.rooms = [] ∧
    (leaveRoom emptyIdState "").1.userSockets = [] := by
  decide

/-- Where the two teardowns agree: when the reverse scan of the connection index finds
the user `userId` for the connection and `userId` is not the empty string, the
`disconnect` handler produces the same room store, the same connection index and the
same emitted events (the same `roomUpdate`, to the same room with the same roster, or
none) as `leaveRoom(userId)` on the same state. -/
theorem disconnect_performs_leaveRoom (s : State) (id userId : String)
    (hbound : findSocketUser s.userSockets id = some userId) (hne : userId ≠ "") :
    (disconnect s id).1.rooms = (leaveRoom s userId).1.rooms ∧
    (disconnect s id).1.userSockets = (leaveRoom s userId).1.userSockets ∧
    (disconnect s id).2 = (leaveRoom s userId).2 := by
  rw [disconnect_eq_leaveRoom s id userId hbound hne]
  exact ⟨rfl, rfl, rfl⟩

/-- The two teardowns at the state where `u` is in `r1` and `r2` and bound to `c1`: both
handlers delete `r1`, leave `r2` and unbind `u`. -/
theorem disconnect_performs_leaveRoom_witness :
    (disconnect twoRoomsState "c1").1.rooms = (leaveRoom twoRoomsState "u").1.rooms ∧
    (disconnect twoRoomsState "c1").1.userSockets
      = (leaveRoom twoRoomsState "u").1.userSockets ∧
    (disconnect twoRoomsState "c1").2 = (leaveRoom twoRoomsState "u").2 :=
  disconnect_performs_leaveRoom twoRoomsState "c1" "u" (by decide) (by decide)

/-! ## More runs that part from the specification -/

/-- C12. User `u` is the only participant of `"ex-aaaa"` while the room `"aaaa"` of the
environment with the empty prefix is full. `leaveRoom` for `u` deletes `"ex-aaaa"`, yet
the join that follows, for environment `"ex-"` and no requested room, is assigned
`"ex-aaab"`: the allocator saw the full room `"aaaa"` of the other environment, and the
token `"aaab"` comes after `"aaaa"`, not before it. -/
theorem rejoin_does_not_reuse_token :
    (run State.empty reuseEvents).map
        (fun r => (roomUsers r.1 "ex-aaaa", isRoomFull r.1.rooms "aaaa"))
      = some (some ["u"], true) ∧
    (run State.empty (reuseEvents ++ [.leaveRoom "c" "u"])).map
        (fun r => (r.1.rooms.has "ex-aaaa", targetRoom r.1.rooms (autoJoin "ex-" "u")))
      = some (false, some "ex-aaab") ∧
    (run State.empty
        (reuseEvents ++ [.leaveRoom "c" "u", .joinRoom "c" (autoJoin "ex-" "u")])).map
        (fun r => (roomsOf r.1 "u", r.2.getLast?.bind List.getLast?))
      = some (["ex-aaab"], some ⟨.sender "c", .roomAssigned "ex-aaab"⟩) ∧
    getNextRoomName "aaaa" = "aaab" := by
  decide

/-- C16. User `u1` is in room `r1` and has set `toggleMute(isMuted = true)`; when `u2`
joins `r1`, the `roomUpdate` sent to the room lists both users with `isMuted` false,
while the stored flag of `u1` is true. -/
theorem join_roster_forgets_mute :
    (run State.empty muteEvents).map
        (fun r => (storedMutes r.1 "r1", (r.2.getLast?.getD []).map Emit.target,
          (r.2.getLast?.getD []).flatMap Emit.mutes))
      = some ([("u1", some true), ("u2", none)],
              [.everyone, .room "r1", .sender "c2"],
              [("u1", some false), ("u2", some false)]) := by
  decide

/-! ## What `joinRoom` emits and where it puts the participant -/

theorem disconnect_emits (s : State) (id : String) :
    (disconnect s id).2 = [] ∨
    ∃ roomId roster, (disconnect s id).2 = [⟨.room roomId, .roomUpdate roster⟩] := by
  unfold disconnect
  cases findSocketUser s.userSockets id with
  | none => exact Or.inl rfl
  | some u =>
    by_cases hu : u = ""
    · simp only [hu, if_true]; exact Or.inl trivial
    · simp only [hu, if_false]
      cases findUserRoom s.rooms u with
      | none => exact Or.inl rfl
      | some found =>
        by_cases hz : (removeFromRoom s.rooms found.1 found.2 u).2.size = 0
        · simp only [hz, if_true]; exact Or.inl trivial
        · simp only [hz, if_false]; exact Or.inr ⟨_, _, rfl⟩

/-- The forced disconnect of `joinRoom` emits nothing, or the one `roomUpdate` of the
old connection's `disconnect` handler. -/
theorem reconcile_emits (s : State) (id userId : String) :
    (reconcile s id userId).2 = [] ∨
    ∃ roomId roster, (reconcile s id userId).2 = [⟨.room roomId, .roomUpdate roster⟩] := by
  unfold reconcile
  cases s.userSockets.get userId with
  | none => exact Or.inl rfl
  | some existingSocket =>
    show (if existingSocket ≠ id then forceDisconnect s existingSocket else (s, [])).2 = [] ∨
      ∃ roomId roster,
        (if existingSocket ≠ id then forceDisconnect s existingSocket else (s, [])).2
          = [⟨.room roomId, .roomUpdate roster⟩]
    by_cases he : existingSocket ≠ id
    · rw [if_pos he]
      unfold forceDisconnect
      by_cases hl : existingSocket ∈ s.sockets
      · rw [if_pos hl]
        exact disconnect_emits _ existingSocket
      · rw [if_neg hl]; exact Or.inl rfl
    · rw [if_neg he]; exact Or.inl rfl

theorem reconcile_of_unbound (s : State) (id userId : String)
    (h : s.userSockets.get userId = none ∨ s.userSockets.get userId = some id) :
    reconcile s id userId = (s, []) := by
  unfold reconcile
  rcases h with h | h
  · rw [h]
  · rw [h]
    show (if id ≠ id then forceDisconnect s id else (s, [])) = (s, [])
    rw [if_neg (fun hne => hne rfl)]

theorem targetRoom_some (rooms : JsMap (JsMap Player)) (data : JoinData) :
    ∃ roomId, targetRoom rooms data = some roomId := by
  obtain ⟨k, _, _, _, hloop⟩ := getAvailableRoom_first rooms
  have ht : getAvailableRoom rooms = some (probe BASE_ROOM_NAME k) := hloop _ (by omega)
  cases hr : data.roomId with
  | none => exact ⟨_, by rw [targetRoom_auto _ _ hr, ht]; rfl⟩
  | some r =>
    rw [targetRoom_requested _ _ r hr]
    by_cases hc : r ≠ "" ∧ isRoomFull rooms r = false
    · exact ⟨r, by rw [if_pos hc]⟩
    · exact ⟨_, by rw [if_neg hc, ht]; rfl⟩

/-- The result of `joinRoom` once the target room is known, written out: the participant
is set in the room's players (none when the room is new) and the three events follow
those of the forced disconnect. -/
theorem joinRoomAt_result (s : State) (id : String) (data : JoinData) (roomId : String) :
    joinRoomAt s id data roomId =
      ({ (reconcile s id data.userId).1 with
          rooms := (reconcile s id data.userId).1.rooms.set roomId
            ((((reconcile s id data.userId).1.rooms.get roomId).getD []).set data.userId
              (newPlayer id data)),
          userSockets := (reconcile s id data.userId).1.userSockets.set data.userId id },
       (reconcile s id data.userId).2 ++ joinEmits id data roomId
          ((((reconcile s id data.userId).1.rooms.get roomId).getD []).set data.userId
            (newPlayer id data))) := by
  rw [joinRoomAt_eq]
  by_cases hh : (reconcile s id data.userId).1.rooms.has roomId = true
  · simp only [hh, if_true, joinEmits]
  · have hn : (reconcile s id data.userId).1.rooms.get roomId = none := by
      unfold JsMap.has at hh
      cases hg : (reconcile s id data.userId).1.rooms.get roomId with
      | none => rfl
      | some v => rw [hg] at hh; simp at hh
    simp only [hh, if_false, Bool.false_eq_true, set_set, get_set_self, hn, joinEmits,
      Option.getD_some, Option.getD_none]

/-- The result of `joinRoom`, written out: the state and the emitted events. -/
theorem joinRoom_eq (s : State) (id : String) (data : JoinData) (roomId : String)
    (h : targetRoom s.rooms data = some roomId) :
    ∃ roomPlayers s1,
      joinRoom s id data
        = some (s1, (reconcile s id data.userId).2 ++ joinEmits id data roomId roomPlayers) ∧
      s1.rooms.get roomId = some roomPlayers ∧
      roomPlayers.get data.userId = some (newPlayer id data) ∧
      s1.userSockets.get data.userId = some id ∧
      s1.sockets = (reconcile s id data.userId).1.sockets := by
  refine ⟨(((reconcile s id data.userId).1.rooms.get roomId).getD []).set data.userId
      (newPlayer id data), (joinRoomAt s id data roomId).1, ?_, ?_, ?_, ?_, ?_⟩
  · simp only [joinRoom, h, Option.map_some']
    rw [joinRoomAt_result]
  · rw [joinRoomAt_result]
    exact get_set_self _ _ _
  · exact get_set_self _ _ _
  · rw [joinRoomAt_result]
    exact get_set_self _ _ _
  · rw [joinRoomAt_result]

theorem isRoomFull_iff (rooms : JsMap (JsMap Player)) (roomId : String) :
    isRoomFull rooms roomId = true ↔
      ∃ players, rooms.get roomId = some players ∧ MAX_ROOM_CAPACITY ≤ players.size := by
  unfold isRoomFull
  cases rooms.get roomId with
  | none => simp
  | some players => simp

theorem filter_reconcile_emits (s : State) (id userId : String) :
    (reconcile s id userId).2.filter Emit.isError = [] ∧
    (reconcile s id userId).2.filter Emit.isNewPlayerJoined = [] ∧
    (reconcile s id userId).2.filter Emit.isRoomAssigned = [] := by
  rcases reconcile_emits s id userId with h | ⟨roomId, roster, h⟩
  · rw [h]; exact ⟨rfl, rfl, rfl⟩
  · rw [h]; exact ⟨rfl, rfl, rfl⟩

/-- C15. With `"ex-aaaa"` full, a join for environment `"ex-"` that requests `"ex-aaaa"`
is routed to the allocator, which answers `"aaaa"`: the target is the requested room
although it is full, the room then holds 21 participants and the `roomAssigned` reply
carries `"ex-aaaa"`. -/
theorem requested_full_room_is_target :
    requestFullRoom.roomId = some "ex-aaaa" ∧
    (run State.empty fillEvents).map
        (fun r => (isRoomFull r.1.rooms "ex-aaaa", targetRoom r.1.rooms requestFullRoom))
      = some (true, some "ex-aaaa") ∧
    (run State.empty (fillEvents ++ [.connection "c", .joinRoom "c" requestFullRoom])).map
        (fun r => (r.1.rooms.map fun room => (room.1, room.2.size),
          r.2.getLast?.bind List.getLast?))
      = some ([("ex-aaaa", 21)], some ⟨.sender "c", .roomAssigned "ex-aaaa"⟩) := by
  decide

/-- The two branches of the routing, for every state and payload: `isRoomFull(r)` holds
exactly when room `r` exists and has at least 20 participants; when a requested room is
given (a non-empty string) and is not full, it is the target; in every other case (no
requested room, an empty one, or a full one) the target is
`roomEnv + getAvailableRoom()`. The handler completes, the participant is stored in the
target room, and the one `roomAssigned` event goes to the sender with that room id. -/
theorem joinRoom_routing (s : State) (id : String) (data : JoinData) :
    (∀ r, isRoomFull s.rooms r = true ↔
      ∃ players, s.rooms.get r = some players ∧ MAX_ROOM_CAPACITY ≤ players.size) ∧
    MAX_ROOM_CAPACITY = 20 ∧
    (∀ r, data.roomId = some r → r ≠ "" → isRoomFull s.rooms r = false →
      targetRoom s.rooms data = some r) ∧
    (data.roomId = none →
      targetRoom s.rooms data = (getAvailableRoom s.rooms).map fun t => data.roomEnv ++ t) ∧
    (∀ r, data.roomId = some r → r = "" ∨ isRoomFull s.rooms r = true →
      targetRoom s.rooms data = (getAvailableRoom s.rooms).map fun t => data.roomEnv ++ t) ∧
    (∃ roomId roomPlayers s1 out,
      targetRoom s.rooms data = some roomId ∧
      joinRoom s id data = some (s1, out) ∧
      s1.rooms.get roomId = some roomPlayers ∧
      roomPlayers.get data.userId = some (newPlayer id data) ∧
      out.filter Emit.isRoomAssigned = [⟨.sender id, .roomAssigned roomId⟩]) := by
  refine ⟨isRoomFull_iff s.rooms, rfl, ?_, targetRoom_auto s.rooms data, ?_, ?_⟩
  · intro r hr hne hfull
    rw [targetRoom_requested _ _ r hr, if_pos ⟨hne, hfull⟩]
  · intro r hr hcase
    rw [targetRoom_requested _ _ r hr, if_neg]
    rintro ⟨hne, hfull⟩
    rcases hcase with h | h
    · exact hne h
    · rw [h] at hfull; exact absurd hfull (by simp)
  · obtain ⟨roomId, hroom⟩ := targetRoom_some s.rooms data
    obtain ⟨roomPlayers, s1, hjoin, hget, hplayer, _, _⟩ := joinRoom_eq s id data roomId hroom
    refine ⟨roomId, roomPlayers, s1, _, hroom, hjoin, hget, hplayer, ?_⟩
    rw [List.filter_append, (filter_reconcile_emits s id data.userId).2.2]
    rfl

/-- C20, as the claim states it, fails in the count of `roomUpdate` events: `u` (on
`c1`) and `v` are in room `r1`; a `joinRoom` for `u` and `r1` from connection `c2` closes
`c1`, whose `disconnect` handler sends the roster without `u` to `r1`, and then sends
its own roster: two `roomUpdate` events to the target room in one run, with one
`newPlayerJoined`, one `roomAssigned` and no `error`. -/
theorem rejoin_emits_two_room_updates :
    (run State.empty rejoinSharedRoomEvents).map
        (fun r => ((r.2.getLast?.getD []).map Emit.target,
          ((r.2.getLast?.getD []).filter Emit.isRoomUpdate).map Emit.target))
      = some ([.room "r1", .everyone, .room "r1", .sender "c2"],
              [.room "r1", .room "r1"]) ∧
    (run State.empty rejoinSharedRoomEvents).map
        (fun r => ((r.2.getLast?.getD []).flatMap Emit.mutes,
          (r.2.getLast?.getD []).any Emit.isError))
      = some ([("v", none), ("v", some false), ("u", some false)], false) := by
  decide

/-- C20, amended. The join-failure branch is unreachable. For every state and payload
`joinRoom` completes; after the insertion the target room is present, so the events
emitted are those of the forced disconnect (none, or the one `roomUpdate` of the old connection's
`disconnect` handler; none at all when the user was unbound or bound to the sending
connection) followed by the handler's own three: one `newPlayerJoined` to every
connection with the sender's connection id, the display name and the target room id,
one `roomUpdate` to the target room with the roster of that room, and one `roomAssigned`
to the sender. No `error` is emitted, there is exactly one `newPlayerJoined` and one
`roomAssigned` in all, and the `roomUpdate` events are the handler's own one, to the
target room, preceded by that of the old connection's `disconnect` handler if any. -/
theorem join_failure_unreachable (s : State) (id : String) (data : JoinData) :
    ∃ roomId roomPlayers s1 out,
      targetRoom s.rooms data = some roomId ∧
      joinRoom s id data = some (s1, out) ∧
      s1.rooms.get roomId = some roomPlayers ∧
      out = (reconcile s id data.userId).2 ++
        [⟨.everyone, .newPlayerJoined id data.displayName roomId⟩,
         ⟨.room roomId, .roomUpdate (rosterJoin roomPlayers)⟩,
         ⟨.sender id, .roomAssigned roomId⟩] ∧
      ((reconcile s id data.userId).2 = [] ∨
        ∃ r roster, (reconcile s id data.userId).2 = [⟨.room r, .roomUpdate roster⟩]) ∧
      (s.userSockets.get data.userId = none ∨ s.userSockets.get data.userId = some id →
        (reconcile s id data.userId).2 = []) ∧
      out.filter Emit.isError = [] ∧
      out.filter Emit.isNewPlayerJoined
        = [⟨.everyone, .newPlayerJoined id data.displayName roomId⟩] ∧
      out.filter Emit.isRoomAssigned = [⟨.sender id, .roomAssigned roomId⟩] ∧
      out.filter Emit.isRoomUpdate = (reconcile s id data.userId).2 ++
        [⟨.room roomId, .roomUpdate (rosterJoin roomPlayers)⟩] := by
  obtain ⟨roomId, hroom⟩ := targetRoom_some s.rooms data
  obtain ⟨roomPlayers, s1, hjoin, hget, _, _, _⟩ := joinRoom_eq s id data roomId hroom
  obtain ⟨f1, f2, f3⟩ := filter_reconcile_emits s id data.userId
  refine ⟨roomId, roomPlayers, s1, _, hroom, hjoin, hget, rfl, reconcile_emits s id data.userId,
    ?_, ?_, ?_, ?_, ?_⟩
  · intro h
    rw [reconcile_of_unbound s id data.userId h]
  · rw [List.filter_append, f1]; rfl
  · rw [List.filter_append, f2]; rfl
  · rw [List.filter_append, f3]; rfl
  · rw [List.filter_append]
    rcases reconcile_emits s id data.userId with h | ⟨r, roster, h⟩
    · rw [h]; rfl
    · rw [h]; rfl

/-! ## The allocator as coded -/

/-- C19. Post-condition of `getAvailableRoom` as coded, for every store: it returns the
first name `t` of the sequence `"aaaa"`, `getNextRoomName("aaaa")`, … for which the
store has no room keyed by `t` itself (the bare name, no environment prefix) with 20 or
more participants, and every name generated before `t` is the key of a room with at
least 20 participants. The function only reads the store: it returns the name and
nothing else. -/
theorem getAvailableRoom_postcondition (rooms : JsMap (JsMap Player)) :
    ∃ k, getAvailableRoom rooms = some (probe BASE_ROOM_NAME k) ∧
      (∀ players, rooms.get (probe BASE_ROOM_NAME k) = some players →
        players.size < MAX_ROOM_CAPACITY) ∧
      (∀ j, j < k → ∃ players, rooms.get (probe BASE_ROOM_NAME j) = some players ∧
        MAX_ROOM_CAPACITY ≤ players.size) ∧
      probe BASE_ROOM_NAME 0 = "aaaa" ∧
      (∀ j, probe BASE_ROOM_NAME (j + 1) = getNextRoomName (probe BASE_ROOM_NAME j)) ∧
      MAX_ROOM_CAPACITY = 20 := by
  obtain ⟨k, hk, hnot, hfull, hloop⟩ := getAvailableRoom_first rooms
  refine ⟨k, hloop _ (by omega), ?_, ?_, rfl, fun _ => rfl, rfl⟩
  · intro players hget
    by_contra hcon
    have : isRoomFull rooms (probe BASE_ROOM_NAME k) = true :=
      (isRoomFull_iff rooms _).mpr ⟨players, hget, by omega⟩
    rw [hnot] at this
    exact absurd this (by simp)
  · intro j hj
    exact (isRoomFull_iff rooms _).mp (hfull j hj)

/-! ## `updatePosition` -/

theorem updatePosition_of_find (s : State) (id : String) (data : PositionData)
    (roomId : String) (players : JsMap Player) (playerData : Player)
    (hfind : findUserRoom s.rooms data.userId = some (roomId, players))
    (hget : players.get data.userId = some playerData) :
    updatePosition s id data =
      ({ s with rooms := s.rooms.set roomId (players.set data.userId (withPose playerData data)) },
       [⟨.roomExceptSender roomId id,
         .playerMoved data.userId data.position data.rotation data.animationState⟩]) := by
  simp only [updatePosition, hfind, hget, withPose]

theorem has_set_self {V : Type} (m : JsMap V) (key : String) (v : V) :
    (m.set key v).has key = true := by
  unfold JsMap.has
  rw [get_set_self]
  rfl

/-- Replacing the players of the room the lookup finds, by players that still have the
user, does not change which room the lookup finds. -/
theorem findUserRoom_set (rooms : JsMap (JsMap Player)) (userId roomId : String)
    (players players1 : JsMap Player) (hnd : rooms.keys.Nodup)
    (hfind : findUserRoom rooms userId = some (roomId, players))
    (hhas : players1.has userId = true) :
    findUserRoom (rooms.set roomId players1) userId = some (roomId, players1) := by
  induction rooms with
  | nil => simp [findUserRoom] at hfind
  | cons room rest ih =>
    obtain ⟨r, ps⟩ := room
    simp only [JsMap.keys, List.map_cons, List.nodup_cons] at hnd
    by_cases hh : ps.has userId = true
    · simp only [findUserRoom, hh, if_true, Option.some.injEq, Prod.mk.injEq] at hfind
      simp only [JsMap.set, if_pos hfind.1, findUserRoom, hhas, if_true, hfind.1]
    · simp only [findUserRoom, hh, if_false, Bool.false_eq_true] at hfind
      have hmem := (findUserRoom_mem rest userId (roomId, players) hfind).1
      have hr : ¬ r = roomId := by
        intro e
        apply hnd.1
        rw [e]
        exact List.mem_map.mpr ⟨(roomId, players), hmem, rfl⟩
      simp only [JsMap.set, if_neg hr, findUserRoom, hh, if_false, Bool.false_eq_true]
      exact ih hnd.2 hfind

/-- C17. User `u` is a participant of `r1` and of `r2` (reached by joining twice over
one connection); `updatePosition` for `u` emits its `playerMoved` to `r1`, none to
`r2`, and the entry of `u` in `r2` keeps its old position. -/
theorem updatePosition_reaches_first_room_only :
    (run State.empty twoRoomsEvents).map Prod.fst = some twoRoomsState ∧
    roomsOf twoRoomsState "u" = ["r1", "r2"] ∧
    (updatePosition twoRoomsState "c1" ⟨"u", (1, 2, 3), (0, 1, 0), "walk"⟩).2.map Emit.target
      = [.roomExceptSender "r1" "c1"] ∧
    (((updatePosition twoRoomsState "c1" ⟨"u", (1, 2, 3), (0, 1, 0), "walk"⟩).1.rooms.get
        "r2").bind fun players => (players.get "u").map Player.position) = some (0, 0, 0) := by
  decide

/-- What `updatePosition` does in the room the lookup finds. When the store is a map (no
room id twice) and `roomId` is the first room, in iteration order, that has the user as
a participant (the user's room whenever the user is in one room only),
`updatePosition` sets the position, rotation and
animation state of the user's entry to the payload's and keeps its other fields; the
other participants of the room, every other room, the connection index and the
connections are as before; exactly one event is emitted, a `playerMoved` with the
payload, to that room with the sender excluded; and after a second `updatePosition` for
the user the stored pose is that of the second payload. -/
theorem updatePosition_changes_pose_only (s : State) (id : String) (data : PositionData)
    (roomId : String) (players : JsMap Player)
    (hmap : s.rooms.keys.Nodup)
    (hfirst : (roomsOf s data.userId).head? = some roomId)
    (hplayers : s.rooms.get roomId = some players) :
    ∃ playerData, players.get data.userId = some playerData ∧
      (updatePosition s id data).2 =
        [⟨.roomExceptSender roomId id,
          .playerMoved data.userId data.position data.rotation data.animationState⟩] ∧
      (updatePosition s id data).1.rooms.get roomId =
        some (players.set data.userId (withPose playerData data)) ∧
      (players.set data.userId (withPose playerData data)).get data.userId =
        some { playerData with position := data.position, rotation := data.rotation,
                               animationState := data.animationState } ∧
      (∀ other, other ≠ data.userId →
        (players.set data.userId (withPose playerData data)).get other = players.get other) ∧
      (players.set data.userId (withPose playerData data)).keys = players.keys ∧
      (∀ other, other ≠ roomId →
        (updatePosition s id data).1.rooms.get other = s.rooms.get other) ∧
      (updatePosition s id data).1.rooms.keys = s.rooms.keys ∧
      (updatePosition s id data).1.userSockets = s.userSockets ∧
      (updatePosition s id data).1.sockets = s.sockets ∧
      (∀ (id2 : String) (data2 : PositionData), data2.userId = data.userId →
        (updatePosition (updatePosition s id data).1 id2 data2).1.rooms.get roomId =
          some (players.set data.userId (withPose playerData data2))) := by
  obtain ⟨found, hfind, hmem, hhas⟩ := findUserRoom_of_head s.rooms data.userId roomId hfirst
  have hfp : found = players := by
    have := get_of_mem_nodup s.rooms roomId found hmap hmem
    rw [hplayers] at this
    exact (Option.some.inj this).symm
  subst hfp
  obtain ⟨playerData, hget⟩ := has_get found data.userId hhas
  have hkey : roomId ∈ s.rooms.keys := get_some_mem_keys s.rooms roomId found hplayers
  have hupd := updatePosition_of_find s id data roomId found playerData hfind hget
  refine ⟨playerData, hget, ?_, ?_, ?_, ?_, ?_, ?_, ?_, ?_, ?_, ?_⟩
  · rw [hupd]
  · rw [hupd]; exact get_set_self _ _ _
  · exact get_set_self _ _ _
  · intro other hother
    exact get_set_of_ne _ _ _ _ hother
  · exact keys_set_of_mem _ _ _ ((has_iff_mem_keys found data.userId).mp hhas)
  · intro other hother
    rw [hupd]
    exact get_set_of_ne _ _ _ _ hother
  · rw [hupd]
    exact keys_set_of_mem _ _ _ hkey
  · rw [hupd]
  · rw [hupd]
  · intro id2 data2 hu
    have hfind1 : findUserRoom (updatePosition s id data).1.rooms data2.userId
        = some (roomId, found.set data.userId (withPose playerData data)) := by
      rw [hupd, hu]
      exact findUserRoom_set s.rooms data.userId roomId found _ hmap hfind
        (has_set_self _ _ _)
    have hget1 : (found.set data.userId (withPose playerData data)).get data2.userId
        = some (withPose playerData data) := by
      rw [hu]; exact get_set_self _ _ _
    rw [updatePosition_of_find _ id2 data2 roomId _ _ hfind1 hget1, hupd, hu]
    simp only [set_set, get_set_self]
    rfl

/-- The pose update at the state where user `u` is alone in room `r1`. -/
theorem updatePosition_changes_pose_only_witness :
    (updatePosition joinedState "c2" ⟨"u", (1, 2, 3), (0, 1, 0), "walk"⟩).2 =
      [⟨.roomExceptSender "r1" "c2", .playerMoved "u" (1, 2, 3) (0, 1, 0) "walk"⟩] := by
  obtain ⟨_, _, h, _⟩ :=
    updatePosition_changes_pose_only joinedState "c2" ⟨"u", (1, 2, 3), (0, 1, 0), "walk"⟩ "r1"
      [("u", newPlayer "c2" (requestJoin "u" "r1"))] (by decide) (by decide) (by decide)
  exact h

end Server
